import Mathlib

/-!
# Verification of the idoit composite task engine (chain / group templates)

Shallow embedding of `src/lib/chain_template.js` (which contains both the
`ChainTemplate` and the `GroupTemplate` implementation) of the idoit job
queue.

The durable store (redis) is modelled as a record of hashes, sets and sorted
sets over JSON values.  Handlers are translated as pure functions from the
in-memory task snapshot, the incoming command, the store-clock time and the
store reads they perform, to an `Outcome`: either an exception before any
transaction was issued (`threw`), an early return with no store interaction
(`skip`), or a single validate/exec transaction together with the events the
handler emits (`run`).
-/

set_option autoImplicit false

/-- JSON values, as stored in task-record hash fields and carried in
command `data`.  Numbers are modelled as integers (all numbers used by the
engine are integers). -/
inductive J where
  | null : J
  | bool : Bool → J
  | num  : Int → J
  | str  : String → J
  | arr  : List J → J
  | obj  : List (String × J) → J

mutual

def J.decEq : (a b : J) → Decidable (a = b)
  | .null, .null => isTrue rfl
  | .bool x, .bool y =>
      match Bool.decEq x y with
      | isTrue h => isTrue (by rw [h])
      | isFalse h => isFalse (by intro hh; cases hh; exact h rfl)
  | .num x, .num y =>
      match Int.decEq x y with
      | isTrue h => isTrue (by rw [h])
      | isFalse h => isFalse (by intro hh; cases hh; exact h rfl)
  | .str x, .str y =>
      match String.decEq x y with
      | isTrue h => isTrue (by rw [h])
      | isFalse h => isFalse (by intro hh; cases hh; exact h rfl)
  | .arr xs, .arr ys =>
      match J.decEqList xs ys with
      | isTrue h => isTrue (by rw [h])
      | isFalse h => isFalse (by intro hh; cases hh; exact h rfl)
  | .obj xs, .obj ys =>
      match J.decEqObj xs ys with
      | isTrue h => isTrue (by rw [h])
      | isFalse h => isFalse (by intro hh; cases hh; exact h rfl)
  | .null, .bool _ => isFalse (by intro h; cases h)
  | .null, .num _ => isFalse (by intro h; cases h)
  | .null, .str _ => isFalse (by intro h; cases h)
  | .null, .arr _ => isFalse (by intro h; cases h)
  | .null, .obj _ => isFalse (by intro h; cases h)
  | .bool _, .null => isFalse (by intro h; cases h)
  | .bool _, .num _ => isFalse (by intro h; cases h)
  | .bool _, .str _ => isFalse (by intro h; cases h)
  | .bool _, .arr _ => isFalse (by intro h; cases h)
  | .bool _, .obj _ => isFalse (by intro h; cases h)
  | .num _, .null => isFalse (by intro h; cases h)
  | .num _, .bool _ => isFalse (by intro h; cases h)
  | .num _, .str _ => isFalse (by intro h; cases h)
  | .num _, .arr _ => isFalse (by intro h; cases h)
  | .num _, .obj _ => isFalse (by intro h; cases h)
  | .str _, .null => isFalse (by intro h; cases h)
  | .str _, .bool _ => isFalse (by intro h; cases h)
  | .str _, .num _ => isFalse (by intro h; cases h)
  | .str _, .arr _ => isFalse (by intro h; cases h)
  | .str _, .obj _ => isFalse (by intro h; cases h)
  | .arr _, .null => isFalse (by intro h; cases h)
  | .arr _, .bool _ => isFalse (by intro h; cases h)
  | .arr _, .num _ => isFalse (by intro h; cases h)
  | .arr _, .str _ => isFalse (by intro h; cases h)
  | .arr _, .obj _ => isFalse (by intro h; cases h)
  | .obj _, .null => isFalse (by intro h; cases h)
  | .obj _, .bool _ => isFalse (by intro h; cases h)
  | .obj _, .num _ => isFalse (by intro h; cases h)
  | .obj _, .str _ => isFalse (by intro h; cases h)
  | .obj _, .arr _ => isFalse (by intro h; cases h)

def J.decEqList : (a b : List J) → Decidable (a = b)
  | [], [] => isTrue rfl
  | [], _ :: _ => isFalse (by intro h; cases h)
  | _ :: _, [] => isFalse (by intro h; cases h)
  | x :: xs, y :: ys =>
      match J.decEq x y with
      | isTrue h1 =>
        match J.decEqList xs ys with
        | isTrue h2 => isTrue (by rw [h1, h2])
        | isFalse h2 => isFalse (by intro hh; cases hh; exact h2 rfl)
      | isFalse h1 => isFalse (by intro hh; cases hh; exact h1 rfl)

def J.decEqObj : (a b : List (String × J)) → Decidable (a = b)
  | [], [] => isTrue rfl
  | [], _ :: _ => isFalse (by intro h; cases h)
  | _ :: _, [] => isFalse (by intro h; cases h)
  | (k, v) :: xs, (l, w) :: ys =>
      match String.decEq k l with
      | isTrue hk =>
        match J.decEq v w with
        | isTrue h1 =>
          match J.decEqObj xs ys with
          | isTrue h2 => isTrue (by rw [hk, h1, h2])
          | isFalse h2 => isFalse (by intro hh; cases hh; exact h2 rfl)
        | isFalse h1 => isFalse (by intro hh; cases hh; exact h1 rfl)
      | isFalse hk => isFalse (by intro hh; cases hh; exact hk rfl)

end

instance : DecidableEq J := J.decEq

instance : Inhabited J := ⟨J.null⟩

/-- JavaScript truthiness of a JSON value, used by
`if (command.data.result)` in the chain result handler. -/
def J.truthy : J → Bool
  | .null   => false
  | .bool b => b
  | .num n  => n != 0
  | .str s  => s != ""
  | .arr _  => true
  | .obj _  => true

/-- The optional `data` payload of a command: the fields the engine ever
reads or writes (`id`, `result`, `error`); each may be absent
(JS `undefined`, dropped by `JSON.stringify`). -/
structure CmdData where
  id     : Option String
  result : Option J
  error  : Option J
deriving DecidableEq

/-- A command envelope, `{to, to_uid, type, data?}`. -/
structure Command where
  «to»   : String
  to_uid : String
  type   : String
  data   : Option CmdData
deriving DecidableEq

/-- Modelled from the spec: canonical JSON encoding of a command's `data`
payload (`command.js` is not under `src/`); fields are emitted in a fixed
order and absent fields are dropped, so equal payloads have equal
encodings. -/
def CmdData.toJSON (d : CmdData) : J :=
  J.obj ((match d.id with | some i => [("id", J.str i)] | none => []) ++
         (match d.result with | some r => [("result", r)] | none => []) ++
         (match d.error with | some e => [("error", e)] | none => []))

/-- Modelled from the spec: canonical JSON encoding of a command
(`command.js` is not under `src/`).  The canonical form is the command's
identity in the store's sorted sets, in particular in `commands_locked`. -/
def Command.toJSON (c : Command) : J :=
  J.obj ([("to", J.str c.to), ("to_uid", J.str c.to_uid), ("type", J.str c.type)] ++
         (match c.data with | some d => [("data", d.toJSON)] | none => []))

/-- A store operation, as appearing in the `validate` and `exec` parts of a
transaction. -/
inductive Op where
  | zrem    (key : String) (member : J)
  | hget    (key field : String)
  | srem    (key member : String)
  | sadd    (key member : String)
  | hset    (key field : String) (value : J)
  | zadd    (key : String) (score : Int) (member : J)
  | hincrby (key field : String) (delta : Int)
deriving DecidableEq

/-- The durable store: task-record hashes (key, field, value), plain sets of
task ids, and sorted sets (key, member, score).  Hash values are stored as
their decoded JSON values; `JSON.parse (JSON.stringify v) = v` justifies
identifying a stored string with its value. -/
structure Store where
  hashes : List (String × String × J)
  sets   : List (String × String)
  zsets  : List (String × J × Int)
deriving DecidableEq

/-- `hget`: redis returns nil for an absent key/field, and `JSON.parse`
turns that nil into the JSON `null` value, so absence reads as `null`. -/
def Store.hget (s : Store) (k f : String) : J :=
  match s.hashes.find? (fun e => e.1 == k && e.2.1 == f) with
  | some e => e.2.2
  | none => J.null

/-- Number of entries of sorted set `k` whose member is `m` (0 or 1 in any
store reachable by the engine). -/
def Store.zcount (s : Store) (k : String) (m : J) : Nat :=
  (s.zsets.filter (fun e => e.1 == k && e.2.1 == m)).length

/-- The store after removing member `m` from sorted set `k`. -/
def Store.zremApply (s : Store) (k : String) (m : J) : Store :=
  { s with zsets := s.zsets.filter (fun e => !(e.1 == k && e.2.1 == m)) }

/-- Update a hash list at (key, field). -/
def hashUpdate (h : List (String × String × J)) (k f : String) (v : J) :
    List (String × String × J) :=
  (k, f, v) :: h.filter (fun e => !(e.1 == k && e.2.1 == f))

/-- Apply one operation to the store, returning the new store and the
operation's redis reply (as a JSON value, the way the transaction script
compares it). -/
def Store.applyOp (s : Store) : Op → Store × J
  | .zrem k m => (s.zremApply k m, J.num (s.zcount k m))
  | .hget k f => (s, s.hget k f)
  | .srem k m =>
      (({ s with sets := s.sets.filter (fun e => !(e.1 == k && e.2 == m)) }),
       J.num (s.sets.filter (fun e => e.1 == k && e.2 == m)).length)
  | .sadd k m =>
      if s.sets.contains (k, m) then (s, J.num 0)
      else ({ s with sets := (k, m) :: s.sets }, J.num 1)
  | .hset k f v =>
      ({ s with hashes := hashUpdate s.hashes k f v }, J.num 0)
  | .zadd k sc m =>
      ({ s with zsets := (k, m, sc) :: s.zsets.filter (fun e => !(e.1 == k && e.2.1 == m)) },
       J.num 0)
  | .hincrby k f d =>
      let cur : Int := match s.hget k f with | .num n => n | _ => 0
      ({ s with hashes := hashUpdate s.hashes k f (J.num (cur + d)) }, J.num (cur + d))

/-- A validate/exec transaction, exactly as assembled by the handlers. -/
structure Transaction where
  validate : List (J × Op)
  exec     : List Op
deriving DecidableEq

/-- Modelled from the spec: the store-side transaction script
(`queue.__scripts__.transaction` is not under `src/`).  Validate entries are
evaluated in order against the threaded store; the first mismatch aborts. -/
def Store.runValidate : Store → List (J × Op) → Store × Bool
  | s, [] => (s, true)
  | s, (exp, op) :: rest =>
      let r := s.applyOp op
      if r.2 = exp then r.1.runValidate rest else (r.1, false)

/-- Modelled from the spec: run a transaction.  If every validate entry
matches, all exec writes are applied atomically (together with the validate
entries' own effects, which is how the locked command is consumed) and the
script returns success; otherwise the store is left unchanged and the script
returns failure. -/
def Store.runTx (s : Store) (tx : Transaction) : Store × Bool :=
  let v := s.runValidate tx.validate
  if v.2 then (tx.exec.foldl (fun st op => (st.applyOp op).1) v.1, true)
  else (s, false)

/-- Events emitted on the queue emitter.  `task:end` and `task:end:id`
(always emitted together, with the same payload) are collapsed into one
constructor. -/
inductive Event where
  | taskEnd (id uid : String)
  | errorEmit (e : J)
deriving DecidableEq

/-- What a handler that reached its transaction submits: events emitted
before the script call, the transaction itself, and the events emitted only
when the script reports success. -/
structure RunOutcome where
  preEvents  : List Event
  tx         : Transaction
  postEvents : List Event
deriving DecidableEq

/-- Result of one handler invocation. -/
inductive Outcome where
  | threw
  | skip
  | run (o : RunOutcome)
deriving DecidableEq

/-- Effect of an outcome on a store: `threw` and `skip` touch nothing;
`run` submits the transaction and emits the events. -/
def applyOutcome (s : Store) : Outcome → Store × List Event
  | .threw => (s, [])
  | .skip  => (s, [])
  | .run o =>
      let r := s.runTx o.tx
      (r.1, o.preEvents ++ if r.2 then o.postEvents else [])

/-- `{prefix}{pool}:commands_locked`. -/
def lockedKey (pfx pool : String) : String := pfx ++ pool ++ ":commands_locked"

/-- `{prefix}{pool}:commands`. -/
def commandsKey (pfx pool : String) : String := pfx ++ pool ++ ":commands"

/-- `{prefix}{id}`, the task-record hash key. -/
def taskKey (pfx id : String) : String := pfx ++ id

/-- The in-memory snapshot (`this`) of a composite task as the worker loop
hands it to a handler: the serializable fields read by the chain and group
handlers. -/
structure CompositeTask where
  id                : String
  uid               : String
  name              : String
  pool              : String
  children          : List String
  children_finished : Nat
  total             : Int
  removeDelay       : Int
  parent            : Option String
  parent_pool       : String
  parent_uid        : String
  user_data         : J
deriving DecidableEq

/-- A child record as returned by the store adapter's raw-task read
(`__getRawTask__`, `__getRawTasks__`, pinned by the spec as `getTask` /
`getTasks`; queue.js is not under `src/`): the fields the composite
handlers use.  `none` models a deleted record. -/
structure RawTask where
  id     : String
  uid    : String
  pool   : String
  result : J
deriving DecidableEq

/-- Placeholder record; only ever dereferenced under a guard proving the
lookup succeeded. -/
def RawTask.dflt : RawTask := ⟨"", "", "", J.null⟩

example : J.truthy (J.num 0) = false := by decide
example : J.truthy (J.str "x") = true := by decide
example : (Store.runTx ⟨[("t", "state", J.str "waiting")], [], [("L", J.str "c", 1)]⟩
    ⟨[(J.num 1, Op.zrem "L" (J.str "c")), (J.str "waiting", Op.hget "t" "state")],
     [Op.hset "t" "state" (J.str "idle")]⟩).2 = true := by decide
example : (Store.runTx ⟨[("t", "state", J.str "idle")], [], [("L", J.str "c", 1)]⟩
    ⟨[(J.num 1, Op.zrem "L" (J.str "c")), (J.str "waiting", Op.hget "t" "state")],
     [Op.hset "t" "state" (J.str "idle")]⟩).2 = false := by decide

namespace ChainTemplate

/-- `ChainTemplate.prototype.handleCommand_activate` (chain_template.js
lines 86-116): move the chain from `waiting` to `idle` and, when the first
child's record still exists, send it an `activate` command — one
transaction.  `raw` is the store adapter's record lookup, a separate store
round trip. -/
def handleCommand_activate (pfx : String) (self : CompositeTask)
    (raw : String → Option RawTask) (time : Int) (cmd : Command) : Outcome :=
  let rawChild := raw (self.children.getD 0 "")
  let baseTx : Transaction :=
    { validate := [ (J.num 1, Op.zrem (lockedKey pfx self.pool) cmd.toJSON),
                    (J.str "waiting", Op.hget (taskKey pfx self.id) "state") ],
      exec := [ Op.srem (pfx ++ "waiting") self.id,
                Op.sadd (pfx ++ "idle") self.id,
                Op.hset (taskKey pfx self.id) "state" (J.str "idle") ] }
  let tx : Transaction :=
    match rawChild with
    | some rc =>
        { baseTx with exec := baseTx.exec ++
            [ Op.zadd (commandsKey pfx rc.pool) time
                (Command.toJSON ⟨rc.id, rc.uid, "activate", none⟩) ] }
    | none => baseTx
  .run { preEvents := [], tx := tx, postEvents := [] }

/-- `ChainTemplate.prototype.handleCommand_result` (chain_template.js
lines 121-215).  When another child follows, increment `children_finished`,
activate that child if its record exists, and — when the received result is
JS-truthy — read that child's persisted `args` and write back
`args ++ [result]`, all in one transaction.  Reading `args` of a deleted
record parses redis nil to `null`, whose `.concat` throws; a non-array
parse likewise throws.  When no child follows, finish the chain: increment
`children_finished`, move to `finished`, set `progress`, persist the result
when present, notify the parent when there is one, and emit `task:end` on
success.  A command without `data` throws on the `command.data.result`
dereference in either branch. -/
def handleCommand_result (pfx : String) (self : CompositeTask)
    (raw : String → Option RawTask) (s : Store) (time : Int) (cmd : Command) : Outcome :=
  if self.children_finished + 1 < self.children.length then
    let childID := self.children.getD (self.children_finished + 1) ""
    let rawChild := raw childID
    let tx0 : Transaction :=
      { validate := [ (J.num 1, Op.zrem (lockedKey pfx self.pool) cmd.toJSON),
                      (J.str "idle", Op.hget (taskKey pfx self.id) "state") ],
        exec := [ Op.hincrby (taskKey pfx self.id) "children_finished" 1 ] }
    let tx1 : Transaction :=
      match rawChild with
      | some rc =>
          { tx0 with exec := tx0.exec ++
              [ Op.zadd (commandsKey pfx rc.pool) time
                  (Command.toJSON ⟨childID, rc.uid, "activate", none⟩) ] }
      | none => tx0
    match cmd.data with
    | none => .threw
    | some d =>
        if (d.result.getD J.null).truthy then
          match s.hget (taskKey pfx childID) "args" with
          | J.arr xs =>
              .run { preEvents := [], postEvents := [],
                     tx := { tx1 with exec := tx1.exec ++
                       [ Op.hset (taskKey pfx childID) "args"
                           (J.arr (xs ++ [d.result.getD J.null])) ] } }
          | _ => .threw
        else
          .run { preEvents := [], tx := tx1, postEvents := [] }
  else
    match cmd.data with
    | none => .threw
    | some d =>
        let tx0 : Transaction :=
          { validate := [ (J.num 1, Op.zrem (lockedKey pfx self.pool) cmd.toJSON),
                          (J.str "idle", Op.hget (taskKey pfx self.id) "state") ],
            exec := [ Op.hincrby (taskKey pfx self.id) "children_finished" 1,
                      Op.srem (pfx ++ "idle") self.id,
                      Op.zadd (pfx ++ "finished") (self.removeDelay + time) (J.str self.id),
                      Op.hset (taskKey pfx self.id) "state" (J.str "finished"),
                      Op.hset (taskKey pfx self.id) "progress" (J.num self.total) ] }
        let tx1 : Transaction :=
          match d.result with
          | some r => { tx0 with exec := tx0.exec ++
              [ Op.hset (taskKey pfx self.id) "result" r ] }
          | none => tx0
        let tx2 : Transaction :=
          match self.parent with
          | some p => { tx1 with exec := tx1.exec ++
              [ Op.zadd (commandsKey pfx self.parent_pool) time
                  (Command.toJSON ⟨p, self.parent_uid, "result",
                     some ⟨some self.id, d.result, none⟩⟩) ] }
          | none => tx1
        .run { preEvents := [], tx := tx2,
               postEvents := [ Event.taskEnd self.id self.uid ] }

end ChainTemplate

/-- Modelled from the spec: the `QueueError` wrapper built by the group
failure path (`error.js` is not under `src/`) followed by serialize-error's
plain-object encoding; it carries the message, the task name, the state at
failure, the task id and the user data. -/
def serializedGroupError (self : CompositeTask) : J :=
  J.obj [ ("message", J.str "Group error: terminating task because children deleted"),
          ("name", J.str self.name),
          ("state", J.str "idle"),
          ("id", J.str self.id),
          ("user_data", self.user_data) ]

namespace GroupTemplate

/-- `GroupTemplate.prototype.handleCommand_activate` (chain_template.js
lines 324-359): move the group from `waiting` to `idle` and send `activate`
to every child whose record still exists (deleted children are skipped),
all in one transaction. -/
def handleCommand_activate (pfx : String) (self : CompositeTask)
    (raw : String → Option RawTask) (time : Int) (cmd : Command) : Outcome :=
  let baseTx : Transaction :=
    { validate := [ (J.num 1, Op.zrem (lockedKey pfx self.pool) cmd.toJSON),
                    (J.str "waiting", Op.hget (taskKey pfx self.id) "state") ],
      exec := [ Op.srem (pfx ++ "waiting") self.id,
                Op.sadd (pfx ++ "idle") self.id,
                Op.hset (taskKey pfx self.id) "state" (J.str "idle") ] }
  let rawChildren := self.children.map raw
  let tx : Transaction :=
    { baseTx with exec := baseTx.exec ++
        rawChildren.filterMap (fun rc? => rc?.map (fun rc =>
          Op.zadd (commandsKey pfx rc.pool) time
            (Command.toJSON ⟨rc.id, rc.uid, "activate", none⟩))) }
  .run { preEvents := [], tx := tx, postEvents := [] }

/-- `GroupTemplate.prototype.handleCommand_result` (chain_template.js
lines 364-392): increment `children_finished` and enqueue a `group_check`
command to self, in one transaction. -/
def handleCommand_result (pfx : String) (self : CompositeTask)
    (time : Int) (cmd : Command) : Outcome :=
  .run { preEvents := [], postEvents := [],
         tx := { validate := [ (J.num 1, Op.zrem (lockedKey pfx self.pool) cmd.toJSON),
                               (J.str "idle", Op.hget (taskKey pfx self.id) "state") ],
                 exec := [ Op.hincrby (taskKey pfx self.id) "children_finished" 1,
                           Op.zadd (commandsKey pfx self.pool) time
                             (Command.toJSON ⟨self.id, self.uid, "group_check", none⟩) ] } }

/-- `GroupTemplate.prototype.handleCommand_group_check` (chain_template.js
lines 397-499).  An early check (`children_finished < children.length`)
returns before any store interaction.  Otherwise re-read all child records;
if some child was deleted, emit a queue `error` event, move the group to
`finished`, persist the serialized error and notify a parent with an
`error` command; else move to `finished`, set `progress`, persist the
ordered list of children's results and notify a parent with a `result`
command.  Either terminal transaction emits `task:end` on success.
(The source guards the result write with `typeof result !== 'undefined'`,
which always holds of the freshly built array.) -/
def handleCommand_group_check (pfx : String) (self : CompositeTask)
    (raw : String → Option RawTask) (time : Int) (cmd : Command) : Outcome :=
  if self.children_finished < self.children.length then .skip
  else
    let baseTx : Transaction :=
      { validate := [ (J.num 1, Op.zrem (lockedKey pfx self.pool) cmd.toJSON),
                      (J.str "idle", Op.hget (taskKey pfx self.id) "state") ],
        exec := [ Op.srem (pfx ++ "idle") self.id,
                  Op.zadd (pfx ++ "finished") (self.removeDelay + time) (J.str self.id),
                  Op.hset (taskKey pfx self.id) "state" (J.str "finished") ] }
    let rawChildren := self.children.map raw
    if rawChildren.any (fun rc? => rc?.isNone) then
      let err := serializedGroupError self
      let tx1 : Transaction :=
        match self.parent with
        | some p => { baseTx with exec := baseTx.exec ++
            [ Op.zadd (commandsKey pfx self.parent_pool) time
                (Command.toJSON ⟨p, self.parent_uid, "error",
                   some ⟨none, none, some err⟩⟩) ] }
        | none => baseTx
      let tx2 : Transaction :=
        { tx1 with exec := tx1.exec ++ [ Op.hset (taskKey pfx self.id) "error" err ] }
      .run { preEvents := [ Event.errorEmit err ], tx := tx2,
             postEvents := [ Event.taskEnd self.id self.uid ] }
    else
      let result := J.arr (rawChildren.map (fun rc? => (rc?.getD RawTask.dflt).result))
      let tx1 : Transaction :=
        { baseTx with exec := baseTx.exec ++
            [ Op.hset (taskKey pfx self.id) "progress" (J.num self.total),
              Op.hset (taskKey pfx self.id) "result" result ] }
      let tx2 : Transaction :=
        match self.parent with
        | some p => { tx1 with exec := tx1.exec ++
            [ Op.zadd (commandsKey pfx self.parent_pool) time
                (Command.toJSON ⟨p, self.parent_uid, "result",
                   some ⟨some self.id, some result, none⟩⟩) ] }
        | none => tx1
      .run { preEvents := [], tx := tx2,
             postEvents := [ Event.taskEnd self.id self.uid ] }

end GroupTemplate

/-- A child template instance at prepare time: prepare only reads each
child's `id` and `total`. -/
structure ChildSpec where
  id    : String
  total : Int
deriving DecidableEq

/-- The fields of a composite record that `prepare` initializes. -/
structure PreparedComposite where
  id                : String
  children          : List String
  children_finished : Nat
  total             : Int
  result            : Option (List J)
deriving DecidableEq

/-- `ChainTemplate.prototype.prepare` (chain_template.js lines 50-78):
`__children_to_init__` (from the constructor) is replaced by `init()`'s
return value whenever that is an array; an empty child list rejects with
the chain's configuration error, otherwise the children's ids are recorded
in order and their `total`s summed. -/
def ChainTemplate.prepare (newId : String) (ctorChildren : List ChildSpec)
    (initResult : Option (List ChildSpec)) : Except String PreparedComposite :=
  let toInit := initResult.getD ctorChildren
  if toInit.length = 0 then
    .error "ido error: you should specify chain children"
  else
    .ok { id := newId, children := toInit.map (fun t => t.id), children_finished := 0,
          total := (toInit.map (fun t => t.total)).foldl (fun a b => a + b) 0,
          result := none }

/-- `GroupTemplate.prototype.prepare` (chain_template.js lines 287-316):
identical shape, with the group's configuration error and `result`
initialized to the empty array. -/
def GroupTemplate.prepare (newId : String) (ctorChildren : List ChildSpec)
    (initResult : Option (List ChildSpec)) : Except String PreparedComposite :=
  let toInit := initResult.getD ctorChildren
  if toInit.length = 0 then
    .error "Queue error: you should specify group children"
  else
    .ok { id := newId, children := toInit.map (fun t => t.id), children_finished := 0,
          total := (toInit.map (fun t => t.total)).foldl (fun a b => a + b) 0,
          result := some [] }

/-- Modelled from the spec: the base template persists the task record (and
its membership in the `waiting` set) only after a successful prepare
(task_template.js is not under `src/`); a rejected prepare writes
nothing. -/
def persistPrepared (pfx : String) (r : Except String PreparedComposite)
    (s : Store) : Store :=
  match r with
  | .error _ => s
  | .ok p =>
      { s with
        hashes := hashUpdate (hashUpdate s.hashes (taskKey pfx p.id) "state" (J.str "waiting"))
                    (taskKey pfx p.id) "children_finished" (J.num p.children_finished),
        sets := (pfx ++ "waiting", p.id) :: s.sets }

/-! ## Store lemmas -/

theorem find?_filter_of_imp {α : Type} (l : List α) (p q : α → Bool)
    (h : ∀ a, p a = true → q a = true) :
    (l.filter q).find? p = l.find? p := by
  induction l with
  | nil => rfl
  | cons a l ih =>
      by_cases hq : q a = true
      · by_cases hp : p a = true
        · simp [List.filter_cons, hq, List.find?_cons, hp]
        · simp only [List.filter_cons, hq, if_true]
          rw [List.find?_cons_of_neg _ (by simp [hp]), List.find?_cons_of_neg _ (by simp [hp]), ih]
      · have hp : ¬ p a = true := fun hpa => hq (h a hpa)
        simp only [List.filter_cons, if_neg hq]
        rw [ih, List.find?_cons_of_neg _ (by simp [hp])]

theorem filter_of_filter_not {α : Type} (l : List α) (p : α → Bool) :
    (l.filter (fun a => !(p a))).filter p = [] := by
  induction l with
  | nil => rfl
  | cons a l ih =>
      by_cases h : p a = true
      · simp [List.filter_cons, h, ih]
      · simp only [Bool.eq_false_iff] at h
        simp [List.filter_cons, h, ih]

theorem hget_of_hashUpdate (s s' : Store) (k f : String) (v : J)
    (h : s'.hashes = hashUpdate s.hashes k f v) (K F : String) :
    s'.hget K F = if K = k ∧ F = f then v else s.hget K F := by
  unfold Store.hget
  rw [h]
  unfold hashUpdate
  by_cases hc : K = k ∧ F = f
  · obtain ⟨h1, h2⟩ := hc
    subst h1; subst h2
    rw [List.find?_cons_of_pos _ (by simp)]
    simp
  · rw [if_neg hc, List.find?_cons_of_neg, find?_filter_of_imp]
    · intro a ha
      simp only [Bool.and_eq_true, beq_iff_eq] at ha
      simp only [Bool.not_eq_true', Bool.and_eq_false_iff, beq_eq_false_iff_ne, ne_eq]
      by_cases h1 : a.1 = k
      · right
        intro h2
        exact hc ⟨ha.1 ▸ h1, ha.2 ▸ h2⟩
      · left; exact h1
    · simp only [Bool.and_eq_true, beq_iff_eq, not_and]
      intro h1 h2
      exact hc ⟨h1.symm, h2.symm⟩

/-- Operations that do not write any hash field leave every `hget`
unchanged. -/
def Op.preservesHashes (op : Op) : Prop :=
  ∀ s : Store, ((s.applyOp op).1).hashes = s.hashes

theorem preservesHashes_zrem (k : String) (m : J) : (Op.zrem k m).preservesHashes :=
  fun _ => rfl

theorem preservesHashes_hget (k f : String) : (Op.hget k f).preservesHashes :=
  fun _ => rfl

theorem preservesHashes_srem (k m : String) : (Op.srem k m).preservesHashes :=
  fun _ => rfl

theorem preservesHashes_sadd (k m : String) : (Op.sadd k m).preservesHashes := by
  intro s
  simp only [Store.applyOp]
  split <;> rfl

theorem preservesHashes_zadd (k : String) (sc : Int) (m : J) :
    (Op.zadd k sc m).preservesHashes :=
  fun _ => rfl

theorem hget_congr_hashes (s s' : Store) (h : s'.hashes = s.hashes) (K F : String) :
    s'.hget K F = s.hget K F := by
  unfold Store.hget
  rw [h]

/-- The exec fold of the transaction script. -/
def execFold (l : List Op) (s : Store) : Store :=
  l.foldl (fun st op => (st.applyOp op).1) s

theorem execFold_nil (s : Store) : execFold [] s = s := rfl

theorem execFold_cons (op : Op) (l : List Op) (s : Store) :
    execFold (op :: l) s = execFold l ((s.applyOp op).1) := rfl

theorem hget_execFold_preserve (l : List Op) (s : Store) (K F : String)
    (h : ∀ op ∈ l, op.preservesHashes) : (execFold l s).hget K F = s.hget K F := by
  induction l generalizing s with
  | nil => rfl
  | cons op l ih =>
      rw [execFold_cons, ih _ (fun o ho => h o (List.mem_cons_of_mem _ ho))]
      exact hget_congr_hashes _ _ (h op (List.mem_cons_self _ _) s) _ _

theorem zcount_zremApply_self (s : Store) (k : String) (m : J) :
    (s.zremApply k m).zcount k m = 0 := by
  show ((s.zsets.filter (fun e => !(e.1 == k && e.2.1 == m))).filter
      (fun e => e.1 == k && e.2.1 == m)).length = 0
  rw [filter_of_filter_not]
  rfl

theorem zcount_applyOp_zero (s : Store) (k : String) (m : J) (op : Op)
    (h0 : s.zcount k m = 0) (hop : ∀ sc : Int, op ≠ Op.zadd k sc m) :
    ((s.applyOp op).1).zcount k m = 0 := by
  cases op with
  | zrem k2 m2 =>
      show ((s.zsets.filter (fun e => !(e.1 == k2 && e.2.1 == m2))).filter
          (fun e => e.1 == k && e.2.1 == m)).length = 0
      unfold Store.zcount at h0
      have hsub := (List.filter_sublist (l := s.zsets)
        (p := fun e => !(e.1 == k2 && e.2.1 == m2))).filter (fun e => e.1 == k && e.2.1 == m)
      have := hsub.length_le
      omega
  | hget k2 f2 => exact h0
  | srem k2 m2 => exact h0
  | sadd k2 m2 =>
      simp only [Store.applyOp]
      split
      · exact h0
      · exact h0
  | hset k2 f2 v2 => exact h0
  | hincrby k2 f2 d2 => exact h0
  | zadd k2 sc m2 =>
      show (((k2, m2, sc) :: s.zsets.filter (fun e => !(e.1 == k2 && e.2.1 == m2))).filter
          (fun e => e.1 == k && e.2.1 == m)).length = 0
      unfold Store.zcount at h0
      have hcase : (((k2, m2, sc) : String × J × Int).1 == k &&
          ((k2, m2, sc) : String × J × Int).2.1 == m) = false := by
        by_cases h1 : k2 = k
        · subst h1
          by_cases h2 : m2 = m
          · subst h2; exact absurd rfl (hop sc)
          · simp [h2]
        · simp [h1]
      rw [List.filter_cons, if_neg (by rw [hcase]; simp)]
      have hsub := (List.filter_sublist (l := s.zsets)
        (p := fun e => !(e.1 == k2 && e.2.1 == m2))).filter (fun e => e.1 == k && e.2.1 == m)
      have := hsub.length_le
      omega

theorem runValidate_cons (s : Store) (exp : J) (op : Op) (rest : List (J × Op)) :
    s.runValidate ((exp, op) :: rest) =
      if (s.applyOp op).2 = exp then (s.applyOp op).1.runValidate rest
      else ((s.applyOp op).1, false) := rfl

theorem runValidate_preserves_zero (l : List (J × Op)) (s s' : Store) (b : Bool)
    (k : String) (m : J) (h : s.runValidate l = (s', b)) (h0 : s.zcount k m = 0)
    (hops : ∀ p ∈ l, ∀ sc : Int, p.2 ≠ Op.zadd k sc m) : s'.zcount k m = 0 := by
  induction l generalizing s with
  | nil =>
      unfold Store.runValidate at h
      injection h with h1 h2
      subst h1
      exact h0
  | cons pr rest ih =>
      obtain ⟨exp, op⟩ := pr
      rw [runValidate_cons] at h
      have hz : ((s.applyOp op).1).zcount k m = 0 :=
        zcount_applyOp_zero _ _ _ _ h0 (hops (exp, op) (List.mem_cons_self _ _))
      by_cases hc : (s.applyOp op).2 = exp
      · rw [if_pos hc] at h
        exact ih _ h hz (fun p hp => hops p (List.mem_cons_of_mem _ hp))
      · rw [if_neg hc] at h
        injection h with h1 h2
        subst h1
        exact hz

theorem zcount_execFold_zero (l : List Op) (s : Store) (k : String) (m : J)
    (h0 : s.zcount k m = 0) (hops : ∀ op ∈ l, ∀ sc : Int, op ≠ Op.zadd k sc m) :
    (execFold l s).zcount k m = 0 := by
  induction l generalizing s with
  | nil => exact h0
  | cons op rest ih =>
      rw [execFold_cons]
      exact ih _ (zcount_applyOp_zero _ _ _ _ h0 (hops op (List.mem_cons_self _ _)))
        (fun o ho => hops o (List.mem_cons_of_mem _ ho))

theorem runTx_eq (s : Store) (tx : Transaction) : s.runTx tx =
    (if (s.runValidate tx.validate).2 then
       (execFold tx.exec (s.runValidate tx.validate).1, true)
     else (s, false)) := rfl

theorem runTx_true_elim (s s' : Store) (tx : Transaction)
    (h : s.runTx tx = (s', true)) :
    (s.runValidate tx.validate).2 = true ∧
      s' = execFold tx.exec (s.runValidate tx.validate).1 := by
  rw [runTx_eq] at h
  by_cases hb : (s.runValidate tx.validate).2 = true
  · rw [if_pos hb] at h
    injection h with h1 h2
    exact ⟨hb, h1.symm⟩
  · rw [if_neg hb] at h
    injection h with h1 h2
    cases h2

/-- At-most-once effect of a locked command: a transaction whose first
validate entry removes the command from `commands_locked` expecting count 1,
and which never re-adds that member to that sorted set, cannot validate a
second time after a successful run. -/
theorem lock_rerun_fails (tx : Transaction) (k : String) (m : J) (rest : List (J × Op))
    (hv : tx.validate = (J.num 1, Op.zrem k m) :: rest)
    (hrest : ∀ p ∈ rest, ∀ sc : Int, p.2 ≠ Op.zadd k sc m)
    (hexec : ∀ op ∈ tx.exec, ∀ sc : Int, op ≠ Op.zadd k sc m)
    (s s' : Store) (h : s.runTx tx = (s', true)) :
    (s'.runTx tx).2 = false := by
  obtain ⟨hval, hs'⟩ := runTx_true_elim _ _ _ h
  rw [hv, runValidate_cons] at hval hs'
  by_cases hc : (s.applyOp (Op.zrem k m)).2 = J.num 1
  · rw [if_pos hc] at hval hs'
    have h1 : ((s.applyOp (Op.zrem k m)).1).zcount k m = 0 := zcount_zremApply_self s k m
    obtain ⟨sv, hv2⟩ : ∃ v, (s.applyOp (Op.zrem k m)).1.runValidate rest = v := ⟨_, rfl⟩
    rw [hv2] at hval hs'
    have h2 : sv.1.zcount k m = 0 :=
      runValidate_preserves_zero rest _ _ sv.2 k m (by rw [hv2]) h1 hrest
    have h3 : s'.zcount k m = 0 := by
      rw [hs']
      exact zcount_execFold_zero tx.exec _ k m h2 hexec
    have hzero : (s'.applyOp (Op.zrem k m)).2 = J.num 0 := by
      show J.num (s'.zcount k m) = J.num 0
      rw [h3]
      rfl
    rw [runTx_eq, hv, runValidate_cons, if_neg (by rw [hzero]; simp)]
  · rw [if_neg hc] at hval
    cases hval

theorem data_append (s t : String) : (s ++ t).data = s.data ++ t.data := rfl

theorem append_ne_of_last {α : Type} (l₁ l₂ t₁ t₂ : List α) (c₁ c₂ : α)
    (h₁ : t₁.reverse.head? = some c₁) (h₂ : t₂.reverse.head? = some c₂) (hc : c₁ ≠ c₂) :
    l₁ ++ t₁ ≠ l₂ ++ t₂ := by
  intro h
  have hr := congrArg List.reverse h
  rw [List.reverse_append, List.reverse_append] at hr
  cases ht₁ : t₁.reverse with
  | nil => rw [ht₁] at h₁; cases h₁
  | cons x xs =>
      cases ht₂ : t₂.reverse with
      | nil => rw [ht₂] at h₂; cases h₂
      | cons y ys =>
          rw [ht₁] at h₁ hr
          rw [ht₂] at h₂ hr
          simp only [List.cons_append] at hr
          injection hr with hxy _
          injection h₁ with h₁
          injection h₂ with h₂
          exact hc (h₁ ▸ h₂ ▸ hxy)

/-- The per-pool pending-commands key never collides with any pool's
locked-commands key (the two literal suffixes end in different
characters). -/
theorem commandsKey_ne_lockedKey (p a q b : String) :
    commandsKey p a ≠ lockedKey q b := by
  unfold commandsKey lockedKey
  intro h
  have hd := congrArg String.data h
  simp only [data_append] at hd
  exact append_ne_of_last (p.data ++ a.data) (q.data ++ b.data)
    (":commands").data (":commands_locked").data 's' 'd' rfl rfl (by decide) hd

theorem runTx_pair_true (s s' : Store) (tx : Transaction) (k : String) (m : J)
    (exp2 : J) (K f : String)
    (hv : tx.validate = [(J.num 1, Op.zrem k m), (exp2, Op.hget K f)])
    (h : s.runTx tx = (s', true)) :
    s.hget K f = exp2 ∧ s' = execFold tx.exec (s.zremApply k m) := by
  obtain ⟨hval, hs'⟩ := runTx_true_elim _ _ _ h
  rw [hv, runValidate_cons] at hval hs'
  by_cases hc1 : (s.applyOp (Op.zrem k m)).2 = J.num 1
  · rw [if_pos hc1, runValidate_cons] at hval hs'
    have hh : ((s.applyOp (Op.zrem k m)).1.applyOp (Op.hget K f)).2 = s.hget K f :=
      hget_congr_hashes _ _ rfl _ _
    by_cases hc2 : ((s.applyOp (Op.zrem k m)).1.applyOp (Op.hget K f)).2 = exp2
    · rw [if_pos hc2] at hval hs'
      exact ⟨hh ▸ hc2, hs'⟩
    · rw [if_neg hc2] at hval
      cases hval
  · rw [if_neg hc1] at hval
    cases hval

theorem runTx_pair_false (s : Store) (tx : Transaction) (k : String) (m : J)
    (exp2 : J) (K f : String)
    (hv : tx.validate = [(J.num 1, Op.zrem k m), (exp2, Op.hget K f)])
    (hne : s.hget K f ≠ exp2) : s.runTx tx = (s, false) := by
  rw [runTx_eq, hv, runValidate_cons]
  by_cases hc1 : (s.applyOp (Op.zrem k m)).2 = J.num 1
  · have hcc : ¬ ((s.applyOp (Op.zrem k m)).1.applyOp (Op.hget K f)).2 = exp2 := by
      show ¬ (s.zremApply k m).hget K f = exp2
      rw [hget_congr_hashes _ _ rfl]
      exact hne
    rw [if_pos hc1, runValidate_cons, if_neg hcc]
    simp
  · rw [if_neg hc1]
    simp

@[simp] theorem hget_applyOp_zrem (s : Store) (k : String) (m : J) (K F : String) :
    ((s.applyOp (Op.zrem k m)).1).hget K F = s.hget K F := rfl

@[simp] theorem hget_applyOp_hget (s : Store) (k f K F : String) :
    ((s.applyOp (Op.hget k f)).1).hget K F = s.hget K F := rfl

@[simp] theorem hget_applyOp_srem (s : Store) (k m K F : String) :
    ((s.applyOp (Op.srem k m)).1).hget K F = s.hget K F := rfl

@[simp] theorem hget_applyOp_sadd (s : Store) (k m K F : String) :
    ((s.applyOp (Op.sadd k m)).1).hget K F = s.hget K F :=
  hget_congr_hashes _ _ (preservesHashes_sadd k m s) _ _

@[simp] theorem hget_applyOp_zadd (s : Store) (k : String) (sc : Int) (m : J) (K F : String) :
    ((s.applyOp (Op.zadd k sc m)).1).hget K F = s.hget K F := rfl

@[simp] theorem hget_applyOp_hset (s : Store) (k f : String) (v : J) (K F : String) :
    ((s.applyOp (Op.hset k f v)).1).hget K F =
      if K = k ∧ F = f then v else s.hget K F :=
  hget_of_hashUpdate s _ k f v rfl K F

@[simp] theorem hget_applyOp_hincrby (s : Store) (k f : String) (d : Int) (K F : String) :
    ((s.applyOp (Op.hincrby k f d)).1).hget K F =
      if K = k ∧ F = f then J.num ((match s.hget k f with | J.num n => n | _ => 0) + d)
      else s.hget K F :=
  hget_of_hashUpdate s _ k f _ rfl K F

@[simp] theorem execFold_nil_simp (s : Store) : execFold [] s = s := rfl

@[simp] theorem execFold_cons_simp (op : Op) (l : List Op) (s : Store) :
    execFold (op :: l) s = execFold l ((s.applyOp op).1) := rfl

@[simp] theorem hget_zremApply (s : Store) (k : String) (m : J) (K F : String) :
    (s.zremApply k m).hget K F = s.hget K F := rfl

/-! ## Concrete scenarios used by witnesses and counterexamples -/

/-- A two-child chain snapshot, no child finished yet. -/
def wChain : CompositeTask :=
  { id := "t1", uid := "u1", name := "c", pool := "p",
    children := ["a", "b"], children_finished := 0, total := 10, removeDelay := 3,
    parent := some "par", parent_pool := "pp", parent_uid := "pu", user_data := J.null }

/-- The same chain when its last child is reporting. -/
def wChainLast : CompositeTask := { wChain with children_finished := 1 }

/-- A two-child group snapshot with both children counted finished. -/
def wGroup : CompositeTask :=
  { id := "g1", uid := "u1", name := "g", pool := "p",
    children := ["a", "b"], children_finished := 2, total := 10, removeDelay := 3,
    parent := some "par", parent_pool := "pp", parent_uid := "pu", user_data := J.str "ud" }

/-- The same group while a child is still outstanding. -/
def wGroupEarly : CompositeTask := { wGroup with children_finished := 1 }

def rawA : RawTask := ⟨"a", "ua", "pa", J.num 41⟩

def rawB : RawTask := ⟨"b", "ub", "pb", J.num 42⟩

/-- Record lookup with both children present. -/
def wRawAll : String → Option RawTask :=
  fun c => if c = "a" then some rawA else if c = "b" then some rawB else none

/-- Record lookup with every record deleted. -/
def wRawNone : String → Option RawTask := fun _ => none

def wCmdResult : Command := ⟨"t1", "u1", "result", some ⟨some "a", some (J.num 7), none⟩⟩

def wCmdResultFalse : Command := ⟨"t1", "u1", "result", some ⟨some "a", some (J.bool false), none⟩⟩

def wCmdNoData : Command := ⟨"t1", "u1", "result", none⟩

def wCmdActivate : Command := ⟨"t1", "u1", "activate", none⟩

def wCmdGroupCheck : Command := ⟨"g1", "u1", "group_check", none⟩

/-- Store for the feeding chain: chain idle, next child's args persisted,
the result command locked. -/
def wStoreChainFeed : Store :=
  ⟨[("t1", "state", J.str "idle"), ("b", "args", J.arr [J.num 1])], [],
   [("p:commands_locked", Command.toJSON wCmdResult, 5)]⟩

/-- Same store but the next child's record hash is gone. -/
def wStoreNoChild : Store :=
  ⟨[("t1", "state", J.str "idle")], [],
   [("p:commands_locked", Command.toJSON wCmdResult, 5)]⟩

/-- Does this operation write hash field (k, f)? -/
def writesField (k f : String) : Op → Bool
  | Op.hset k2 f2 _ => k2 == k && f2 == f
  | _ => false

/-! ## Claims -/

/-- C8: a `group_check` command received while `children_finished <
|children|` makes the handler return before issuing any store operation:
no transaction, no events, the store (in particular the locked command in
`commands_locked`) untouched. -/
theorem c8_group_check_early_skip (pfx : String) (self : CompositeTask)
    (raw : String → Option RawTask) (time : Int) (cmd : Command)
    (h : self.children_finished < self.children.length) :
    GroupTemplate.handleCommand_group_check pfx self raw time cmd = Outcome.skip ∧
    ∀ s : Store,
      applyOutcome s (GroupTemplate.handleCommand_group_check pfx self raw time cmd) = (s, []) := by
  have he : GroupTemplate.handleCommand_group_check pfx self raw time cmd = Outcome.skip := by
    unfold GroupTemplate.handleCommand_group_check
    rw [if_pos h]
  exact ⟨he, fun s => by rw [he]; rfl⟩

theorem c8_group_check_early_skip_witness :
    GroupTemplate.handleCommand_group_check "" wGroupEarly wRawAll 5 wCmdGroupCheck = Outcome.skip ∧
    applyOutcome wStoreChainFeed
      (GroupTemplate.handleCommand_group_check "" wGroupEarly wRawAll 5 wCmdGroupCheck) =
      (wStoreChainFeed, []) :=
  ⟨(c8_group_check_early_skip "" wGroupEarly wRawAll 5 wCmdGroupCheck (by decide)).1,
   (c8_group_check_early_skip "" wGroupEarly wRawAll 5 wCmdGroupCheck (by decide)).2 wStoreChainFeed⟩

/-- C10: the chain result handler dereferences `command.data` in both its
branches, so a result command without `data` throws before any transaction
is submitted, whichever branch is taken. -/
theorem c10_result_requires_data (pfx : String) (self : CompositeTask)
    (raw : String → Option RawTask) (s : Store) (time : Int) (cmd : Command)
    (h : cmd.data = none) :
    ChainTemplate.handleCommand_result pfx self raw s time cmd = Outcome.threw := by
  unfold ChainTemplate.handleCommand_result
  by_cases hc : self.children_finished + 1 < self.children.length
  · rw [if_pos hc, h]
  · rw [if_neg hc, h]

theorem c10_result_requires_data_witness :
    ChainTemplate.handleCommand_result "" wChain wRawAll wStoreChainFeed 5 wCmdNoData
      = Outcome.threw ∧
    ChainTemplate.handleCommand_result "" wChainLast wRawAll wStoreChainFeed 5 wCmdNoData
      = Outcome.threw :=
  ⟨c10_result_requires_data "" wChain wRawAll wStoreChainFeed 5 wCmdNoData rfl,
   c10_result_requires_data "" wChainLast wRawAll wStoreChainFeed 5 wCmdNoData rfl⟩

/-- C6: a chain or group whose effective child list is empty (constructor
children possibly overridden by `init()`'s return value) rejects
preparation with its configuration error, and nothing is persisted for
it. -/
theorem c6_zero_children_reject (newId : String) (cc : List ChildSpec)
    (ir : Option (List ChildSpec)) (pfx : String) (s : Store)
    (h : ir.getD cc = []) :
    ChainTemplate.prepare newId cc ir =
      Except.error "ido error: you should specify chain children" ∧
    GroupTemplate.prepare newId cc ir =
      Except.error "Queue error: you should specify group children" ∧
    persistPrepared pfx (ChainTemplate.prepare newId cc ir) s = s ∧
    persistPrepared pfx (GroupTemplate.prepare newId cc ir) s = s := by
  have h1 : ChainTemplate.prepare newId cc ir =
      Except.error "ido error: you should specify chain children" := by
    unfold ChainTemplate.prepare
    rw [h]
    rfl
  have h2 : GroupTemplate.prepare newId cc ir =
      Except.error "Queue error: you should specify group children" := by
    unfold GroupTemplate.prepare
    rw [h]
    rfl
  exact ⟨h1, h2, by rw [h1]; rfl, by rw [h2]; rfl⟩

theorem c6_zero_children_reject_witness :
    ChainTemplate.prepare "t9" [] (some []) =
      Except.error "ido error: you should specify chain children" ∧
    GroupTemplate.prepare "t9" [] (some []) =
      Except.error "Queue error: you should specify group children" ∧
    persistPrepared "" (ChainTemplate.prepare "t9" [] (some [])) wStoreChainFeed =
      wStoreChainFeed ∧
    persistPrepared "" (GroupTemplate.prepare "t9" [] (some [])) wStoreChainFeed =
      wStoreChainFeed :=
  c6_zero_children_reject "t9" [] (some []) "" wStoreChainFeed rfl

/-- C7: with the next chain child's record deleted and a truthy result
being fed, the result handler reads the deleted record's `args` (redis nil,
parsed to `null`) and throws on `.concat` before any transaction is
submitted — it neither increments `children_finished` nor finishes
gracefully, contradicting the documented skip-and-advance behaviour
(which does hold at activate time and for falsy results). -/
theorem c7_deleted_child_feed_throws :
    ChainTemplate.handleCommand_result "" wChain wRawNone wStoreNoChild 5 wCmdResult
      = Outcome.threw := by decide

/-- C1 counterexample: at result `R = false` (a value the command can
carry), the chain result handler does submit the feed transaction —
incrementing `children_finished` and activating the next child — but the
transaction contains no write at all to the next child's `args` field,
because the source guards the merge with JS truthiness
(`if (command.data.result)`), not with presence. -/
theorem c1_counterexample_falsy_result_not_appended :
    (match ChainTemplate.handleCommand_result "" wChain wRawAll wStoreChainFeed 5
        wCmdResultFalse with
     | Outcome.run o =>
         o.tx.exec.contains (Op.hincrby "t1" "children_finished" 1) &&
         o.tx.exec.all (fun op => !(writesField "b" "args" op))
     | _ => false) = true := by decide

/-- C1 (amended): when the next chain child exists and the result fed by
the finished child is JS-truthy, the handler reads the next child's
persisted `args` and writes back `args ++ [result]` in the same transaction
that increments `children_finished` and activates that child (for a falsy
result the `args` write is omitted, as the counterexample shows). -/
theorem c1_feed_appends_truthy_result (pfx : String) (self : CompositeTask)
    (raw : String → Option RawTask) (s : Store) (time : Int) (cmd : Command)
    (d : CmdData) (r : J) (rc : RawTask) (xs : List J)
    (hfeed : self.children_finished + 1 < self.children.length)
    (hdata : cmd.data = some d) (hres : d.result = some r) (htr : r.truthy = true)
    (hraw : raw (self.children.getD (self.children_finished + 1) "") = some rc)
    (hargs : s.hget (taskKey pfx (self.children.getD (self.children_finished + 1) "")) "args"
      = J.arr xs) :
    ChainTemplate.handleCommand_result pfx self raw s time cmd = Outcome.run
      { preEvents := [], postEvents := [],
        tx := { validate :=
                  [ (J.num 1, Op.zrem (lockedKey pfx self.pool) cmd.toJSON),
                    (J.str "idle", Op.hget (taskKey pfx self.id) "state") ],
                exec :=
                  [ Op.hincrby (taskKey pfx self.id) "children_finished" 1,
                    Op.zadd (commandsKey pfx rc.pool) time
                      (Command.toJSON
                        ⟨self.children.getD (self.children_finished + 1) "", rc.uid,
                         "activate", none⟩),
                    Op.hset (taskKey pfx (self.children.getD (self.children_finished + 1) ""))
                      "args" (J.arr (xs ++ [r])) ] } } := by
  unfold ChainTemplate.handleCommand_result
  rw [if_pos hfeed]
  simp only [hraw, hdata, hres, Option.getD_some, htr, if_true, hargs]
  rfl

theorem c1_feed_appends_truthy_result_witness :
    ChainTemplate.handleCommand_result "" wChain wRawAll wStoreChainFeed 5 wCmdResult
      = Outcome.run
      { preEvents := [], postEvents := [],
        tx := { validate :=
                  [ (J.num 1, Op.zrem (lockedKey "" "p") wCmdResult.toJSON),
                    (J.str "idle", Op.hget (taskKey "" "t1") "state") ],
                exec :=
                  [ Op.hincrby (taskKey "" "t1") "children_finished" 1,
                    Op.zadd (commandsKey "" "pb") 5
                      (Command.toJSON ⟨"b", "ub", "activate", none⟩),
                    Op.hset (taskKey "" "b") "args" (J.arr ([J.num 1] ++ [J.num 7])) ] } } :=
  c1_feed_appends_truthy_result "" wChain wRawAll wStoreChainFeed 5 wCmdResult
    ⟨some "a", some (J.num 7), none⟩ (J.num 7) rawB [J.num 1]
    (by decide) rfl rfl (by decide) (by decide) (by decide)

namespace ChainTemplate

/-- The chain result handler's dependency on the incoming command, made
explicit: the command enters only as its canonical lock token and as the
presence/value of `data.result`.  In particular `data.id` — the identity of
the child that actually sent the result — is never consulted; the child to
advance to is selected purely as `children[children_finished + 1]` from the
in-memory snapshot. -/
def resultCore (pfx : String) (self : CompositeTask)
    (raw : String → Option RawTask) (s : Store) (time : Int)
    (token : J) (dres : Option (Option J)) : Outcome :=
  if self.children_finished + 1 < self.children.length then
    let childID := self.children.getD (self.children_finished + 1) ""
    let rawChild := raw childID
    let tx0 : Transaction :=
      { validate := [ (J.num 1, Op.zrem (lockedKey pfx self.pool) token),
                      (J.str "idle", Op.hget (taskKey pfx self.id) "state") ],
        exec := [ Op.hincrby (taskKey pfx self.id) "children_finished" 1 ] }
    let tx1 : Transaction :=
      match rawChild with
      | some rc =>
          { tx0 with exec := tx0.exec ++
              [ Op.zadd (commandsKey pfx rc.pool) time
                  (Command.toJSON ⟨childID, rc.uid, "activate", none⟩) ] }
      | none => tx0
    match dres with
    | none => .threw
    | some res =>
        if (res.getD J.null).truthy then
          match s.hget (taskKey pfx childID) "args" with
          | J.arr xs =>
              .run { preEvents := [], postEvents := [],
                     tx := { tx1 with exec := tx1.exec ++
                       [ Op.hset (taskKey pfx childID) "args"
                           (J.arr (xs ++ [res.getD J.null])) ] } }
          | _ => .threw
        else
          .run { preEvents := [], tx := tx1, postEvents := [] }
  else
    match dres with
    | none => .threw
    | some res =>
        let tx0 : Transaction :=
          { validate := [ (J.num 1, Op.zrem (lockedKey pfx self.pool) token),
                          (J.str "idle", Op.hget (taskKey pfx self.id) "state") ],
            exec := [ Op.hincrby (taskKey pfx self.id) "children_finished" 1,
                      Op.srem (pfx ++ "idle") self.id,
                      Op.zadd (pfx ++ "finished") (self.removeDelay + time) (J.str self.id),
                      Op.hset (taskKey pfx self.id) "state" (J.str "finished"),
                      Op.hset (taskKey pfx self.id) "progress" (J.num self.total) ] }
        let tx1 : Transaction :=
          match res with
          | some r => { tx0 with exec := tx0.exec ++
              [ Op.hset (taskKey pfx self.id) "result" r ] }
          | none => tx0
        let tx2 : Transaction :=
          match self.parent with
          | some p => { tx1 with exec := tx1.exec ++
              [ Op.zadd (commandsKey pfx self.parent_pool) time
                  (Command.toJSON ⟨p, self.parent_uid, "result",
                     some ⟨some self.id, res, none⟩⟩) ] }
          | none => tx1
        .run { preEvents := [], tx := tx2,
               postEvents := [ Event.taskEnd self.id self.uid ] }

end ChainTemplate

/-- C9: the chain result handler factors through `resultCore`, i.e. it
depends on the incoming command only through its canonical lock token and
through `data.result` — never through `data.id` — and, when another child
follows and the handler advances (falsy result shown here; the truthy case
carries the same two operations plus the args write), the child activated
is exactly `children[children_finished + 1]` from the in-memory
snapshot. -/
theorem c9_next_child_selected_by_index (pfx : String) (self : CompositeTask)
    (raw : String → Option RawTask) (s : Store) (time : Int) (cmd : Command) :
    (ChainTemplate.handleCommand_result pfx self raw s time cmd =
       ChainTemplate.resultCore pfx self raw s time cmd.toJSON
         (cmd.data.map (fun d => d.result))) ∧
    (∀ (d : CmdData) (rc : RawTask),
      self.children_finished + 1 < self.children.length →
      cmd.data = some d → (d.result.getD J.null).truthy = false →
      raw (self.children.getD (self.children_finished + 1) "") = some rc →
      ChainTemplate.handleCommand_result pfx self raw s time cmd = Outcome.run
        { preEvents := [], postEvents := [],
          tx := { validate :=
                    [ (J.num 1, Op.zrem (lockedKey pfx self.pool) cmd.toJSON),
                      (J.str "idle", Op.hget (taskKey pfx self.id) "state") ],
                  exec :=
                    [ Op.hincrby (taskKey pfx self.id) "children_finished" 1,
                      Op.zadd (commandsKey pfx rc.pool) time
                        (Command.toJSON
                          ⟨self.children.getD (self.children_finished + 1) "", rc.uid,
                           "activate", none⟩) ] } }) := by
  constructor
  · cases hd : cmd.data with
    | none =>
        unfold ChainTemplate.handleCommand_result ChainTemplate.resultCore
        rw [hd]
        simp only [Option.map_none']
    | some d =>
        unfold ChainTemplate.handleCommand_result ChainTemplate.resultCore
        rw [hd]
        simp only [Option.map_some']
  · intro d rc hfeed hdata htr hraw
    unfold ChainTemplate.handleCommand_result
    rw [if_pos hfeed]
    simp only [hraw, hdata, htr, Bool.false_eq_true, if_false]
    rfl

theorem c9_next_child_selected_by_index_witness :
    (ChainTemplate.handleCommand_result "" wChain wRawAll wStoreChainFeed 5 wCmdResult =
       ChainTemplate.resultCore "" wChain wRawAll wStoreChainFeed 5 wCmdResult.toJSON
         (wCmdResult.data.map (fun d => d.result))) ∧
    ChainTemplate.handleCommand_result "" wChain wRawAll wStoreChainFeed 5 wCmdResultFalse
      = Outcome.run
      { preEvents := [], postEvents := [],
        tx := { validate :=
                  [ (J.num 1, Op.zrem (lockedKey "" "p") wCmdResultFalse.toJSON),
                    (J.str "idle", Op.hget (taskKey "" "t1") "state") ],
                exec :=
                  [ Op.hincrby (taskKey "" "t1") "children_finished" 1,
                    Op.zadd (commandsKey "" "pb") 5
                      (Command.toJSON ⟨"b", "ub", "activate", none⟩) ] } } :=
  ⟨(c9_next_child_selected_by_index "" wChain wRawAll wStoreChainFeed 5 wCmdResult).1,
   (c9_next_child_selected_by_index "" wChain wRawAll wStoreChainFeed 5 wCmdResultFalse).2
     ⟨some "a", some (J.bool false), none⟩ rawB (by decide) rfl (by decide) (by decide)⟩

theorem getD_map_of_lt {α β : Type} (l : List α) (f : α → β) (i : Nat) (d : β) (d' : α)
    (h : i < l.length) : (l.map f).getD i d = f (l.getD i d') := by
  induction l generalizing i with
  | nil => exact absurd h (Nat.not_lt_zero i)
  | cons a l ih =>
      cases i with
      | zero => rfl
      | succ i => exact ih i (Nat.lt_of_succ_lt_succ h)

/-- C4: for every group — with or without a parent — whose terminal
`group_check` finds some child record deleted, the handler emits the error
locally before the script call and submits one transaction that moves the
group from `idle` to `finished` and persists the serialized error; when the
group has a parent, that same transaction also enqueues an `error` — not a
`result` — command to the parent, and when it has none the transaction
(shown explicitly) carries no parent write at all. -/
theorem c4_group_check_deleted_child (pfx : String) (self : CompositeTask)
    (raw : String → Option RawTask) (time : Int) (cmd : Command) (o : RunOutcome)
    (hdone : ¬ self.children_finished < self.children.length)
    (hnull : (self.children.map raw).any (fun rc? => rc?.isNone) = true)
    (hrun : GroupTemplate.handleCommand_group_check pfx self raw time cmd = Outcome.run o) :
    (self.parent = none →
      o = { preEvents := [ Event.errorEmit (serializedGroupError self) ],
            tx := { validate :=
                      [ (J.num 1, Op.zrem (lockedKey pfx self.pool) cmd.toJSON),
                        (J.str "idle", Op.hget (taskKey pfx self.id) "state") ],
                    exec :=
                      [ Op.srem (pfx ++ "idle") self.id,
                        Op.zadd (pfx ++ "finished") (self.removeDelay + time) (J.str self.id),
                        Op.hset (taskKey pfx self.id) "state" (J.str "finished"),
                        Op.hset (taskKey pfx self.id) "error" (serializedGroupError self) ] },
            postEvents := [ Event.taskEnd self.id self.uid ] }) ∧
    (∀ p : String, self.parent = some p →
      o = { preEvents := [ Event.errorEmit (serializedGroupError self) ],
            tx := { validate :=
                      [ (J.num 1, Op.zrem (lockedKey pfx self.pool) cmd.toJSON),
                        (J.str "idle", Op.hget (taskKey pfx self.id) "state") ],
                    exec :=
                      [ Op.srem (pfx ++ "idle") self.id,
                        Op.zadd (pfx ++ "finished") (self.removeDelay + time) (J.str self.id),
                        Op.hset (taskKey pfx self.id) "state" (J.str "finished"),
                        Op.zadd (commandsKey pfx self.parent_pool) time
                          (Command.toJSON ⟨p, self.parent_uid, "error",
                             some ⟨none, none, some (serializedGroupError self)⟩⟩),
                        Op.hset (taskKey pfx self.id) "error" (serializedGroupError self) ] },
            postEvents := [ Event.taskEnd self.id self.uid ] }) ∧
    ∀ s s' : Store, s.runTx o.tx = (s', true) →
      s.hget (taskKey pfx self.id) "state" = J.str "idle" ∧
      s'.hget (taskKey pfx self.id) "state" = J.str "finished" ∧
      s'.hget (taskKey pfx self.id) "error" = serializedGroupError self := by
  cases hp : self.parent with
  | none =>
      have hx : GroupTemplate.handleCommand_group_check pfx self raw time cmd = Outcome.run
          { preEvents := [ Event.errorEmit (serializedGroupError self) ],
            tx := { validate :=
                      [ (J.num 1, Op.zrem (lockedKey pfx self.pool) cmd.toJSON),
                        (J.str "idle", Op.hget (taskKey pfx self.id) "state") ],
                    exec :=
                      [ Op.srem (pfx ++ "idle") self.id,
                        Op.zadd (pfx ++ "finished") (self.removeDelay + time) (J.str self.id),
                        Op.hset (taskKey pfx self.id) "state" (J.str "finished"),
                        Op.hset (taskKey pfx self.id) "error" (serializedGroupError self) ] },
            postEvents := [ Event.taskEnd self.id self.uid ] } := by
        unfold GroupTemplate.handleCommand_group_check
        rw [if_neg hdone]
        simp only [hnull, if_true, hp]
        rfl
      rw [hx] at hrun
      injection hrun with ho
      refine ⟨fun _ => ho.symm, ?_, ?_⟩
      · intro p hpp
        exact Option.noConfusion hpp
      · intro s s' hs
        rw [← ho] at hs
        obtain ⟨hbefore, hafter⟩ := runTx_pair_true s s' _ _ _ _ _ _ rfl hs
        refine ⟨hbefore, ?_, ?_⟩
        · rw [hafter]
          simp
        · rw [hafter]
          simp
  | some p0 =>
      have hx : GroupTemplate.handleCommand_group_check pfx self raw time cmd = Outcome.run
          { preEvents := [ Event.errorEmit (serializedGroupError self) ],
            tx := { validate :=
                      [ (J.num 1, Op.zrem (lockedKey pfx self.pool) cmd.toJSON),
                        (J.str "idle", Op.hget (taskKey pfx self.id) "state") ],
                    exec :=
                      [ Op.srem (pfx ++ "idle") self.id,
                        Op.zadd (pfx ++ "finished") (self.removeDelay + time) (J.str self.id),
                        Op.hset (taskKey pfx self.id) "state" (J.str "finished"),
                        Op.zadd (commandsKey pfx self.parent_pool) time
                          (Command.toJSON ⟨p0, self.parent_uid, "error",
                             some ⟨none, none, some (serializedGroupError self)⟩⟩),
                        Op.hset (taskKey pfx self.id) "error" (serializedGroupError self) ] },
            postEvents := [ Event.taskEnd self.id self.uid ] } := by
        unfold GroupTemplate.handleCommand_group_check
        rw [if_neg hdone]
        simp only [hnull, if_true, hp]
        rfl
      rw [hx] at hrun
      injection hrun with ho
      refine ⟨?_, ?_, ?_⟩
      · intro hpn
        exact Option.noConfusion hpn
      · intro p hpp
        injection hpp with hpe
        subst hpe
        exact ho.symm
      · intro s s' hs
        rw [← ho] at hs
        obtain ⟨hbefore, hafter⟩ := runTx_pair_true s s' _ _ _ _ _ _ rfl hs
        refine ⟨hbefore, ?_, ?_⟩
        · rw [hafter]
          simp
        · rw [hafter]
          simp

/-- The failure outcome of the terminal group check of `wGroup` when every
child record is gone. -/
def wGroupFailOutcome : RunOutcome :=
  { preEvents := [ Event.errorEmit (serializedGroupError wGroup) ],
    tx := { validate :=
              [ (J.num 1, Op.zrem (lockedKey "" "p") wCmdGroupCheck.toJSON),
                (J.str "idle", Op.hget (taskKey "" "g1") "state") ],
            exec :=
              [ Op.srem ("" ++ "idle") "g1",
                Op.zadd ("" ++ "finished") 8 (J.str "g1"),
                Op.hset (taskKey "" "g1") "state" (J.str "finished"),
                Op.zadd (commandsKey "" "pp") 5
                  (Command.toJSON ⟨"par", "pu", "error",
                     some ⟨none, none, some (serializedGroupError wGroup)⟩⟩),
                Op.hset (taskKey "" "g1") "error" (serializedGroupError wGroup) ] },
    postEvents := [ Event.taskEnd "g1" "u1" ] }

/-- `wGroup` without a parent. -/
def wGroupNoParent : CompositeTask := { wGroup with parent := none }

/-- The failure outcome of the terminal group check of `wGroupNoParent`
when every child record is gone: no parent write at all. -/
def wGroupFailNoParentOutcome : RunOutcome :=
  { preEvents := [ Event.errorEmit (serializedGroupError wGroupNoParent) ],
    tx := { validate :=
              [ (J.num 1, Op.zrem (lockedKey "" "p") wCmdGroupCheck.toJSON),
                (J.str "idle", Op.hget (taskKey "" "g1") "state") ],
            exec :=
              [ Op.srem ("" ++ "idle") "g1",
                Op.zadd ("" ++ "finished") 8 (J.str "g1"),
                Op.hset (taskKey "" "g1") "state" (J.str "finished"),
                Op.hset (taskKey "" "g1") "error" (serializedGroupError wGroupNoParent) ] },
    postEvents := [ Event.taskEnd "g1" "u1" ] }

/-- Store holding the idle group record and the locked `group_check`. -/
def wStoreGroup : Store :=
  ⟨[("g1", "state", J.str "idle")], [("idle", "g1")],
   [("p:commands_locked", Command.toJSON wCmdGroupCheck, 5)]⟩

theorem c4_group_check_deleted_child_witness :
    wStoreGroup.hget (taskKey "" "g1") "state" = J.str "idle" ∧
    ((wStoreGroup.runTx wGroupFailOutcome.tx).1).hget (taskKey "" "g1") "state"
      = J.str "finished" ∧
    ((wStoreGroup.runTx wGroupFailOutcome.tx).1).hget (taskKey "" "g1") "error"
      = serializedGroupError wGroup ∧
    ((wStoreGroup.runTx wGroupFailNoParentOutcome.tx).1).hget (taskKey "" "g1") "state"
      = J.str "finished" ∧
    ((wStoreGroup.runTx wGroupFailNoParentOutcome.tx).1).hget (taskKey "" "g1") "error"
      = serializedGroupError wGroupNoParent :=
  ⟨((c4_group_check_deleted_child "" wGroup wRawNone 5 wCmdGroupCheck wGroupFailOutcome
      (by decide) (by decide) (by decide)).2.2 wStoreGroup
      ((wStoreGroup.runTx wGroupFailOutcome.tx).1) (by decide)).1,
   ((c4_group_check_deleted_child "" wGroup wRawNone 5 wCmdGroupCheck wGroupFailOutcome
      (by decide) (by decide) (by decide)).2.2 wStoreGroup
      ((wStoreGroup.runTx wGroupFailOutcome.tx).1) (by decide)).2.1,
   ((c4_group_check_deleted_child "" wGroup wRawNone 5 wCmdGroupCheck wGroupFailOutcome
      (by decide) (by decide) (by decide)).2.2 wStoreGroup
      ((wStoreGroup.runTx wGroupFailOutcome.tx).1) (by decide)).2.2,
   ((c4_group_check_deleted_child "" wGroupNoParent wRawNone 5 wCmdGroupCheck
      wGroupFailNoParentOutcome (by decide) (by decide) (by decide)).2.2 wStoreGroup
      ((wStoreGroup.runTx wGroupFailNoParentOutcome.tx).1) (by decide)).2.1,
   ((c4_group_check_deleted_child "" wGroupNoParent wRawNone 5 wCmdGroupCheck
      wGroupFailNoParentOutcome (by decide) (by decide) (by decide)).2.2 wStoreGroup
      ((wStoreGroup.runTx wGroupFailNoParentOutcome.tx).1) (by decide)).2.2⟩

/-- C5: on a successful completing transaction, a chain's persisted
`result` is exactly the result carried by the finishing result command, and
a group's persisted `result` is the ordered list of its children's record
results, aligned index-by-index with `children` (hence of the group's
size). -/
theorem c5_persisted_results :
    (∀ (pfx : String) (self : CompositeTask) (raw : String → Option RawTask)
       (s : Store) (time : Int) (cmd : Command) (d : CmdData) (r : J)
       (o : RunOutcome) (s' : Store),
      ¬ self.children_finished + 1 < self.children.length →
      cmd.data = some d → d.result = some r →
      ChainTemplate.handleCommand_result pfx self raw s time cmd = Outcome.run o →
      s.runTx o.tx = (s', true) →
      s'.hget (taskKey pfx self.id) "result" = r) ∧
    (∀ (pfx : String) (self : CompositeTask) (raw : String → Option RawTask)
       (time : Int) (cmd : Command) (o : RunOutcome) (s s' : Store),
      ¬ self.children_finished < self.children.length →
      (self.children.map raw).any (fun rc? => rc?.isNone) = false →
      GroupTemplate.handleCommand_group_check pfx self raw time cmd = Outcome.run o →
      s.runTx o.tx = (s', true) →
      s'.hget (taskKey pfx self.id) "result"
          = J.arr ((self.children.map raw).map (fun rc? => (rc?.getD RawTask.dflt).result)) ∧
      ((self.children.map raw).map (fun rc? => (rc?.getD RawTask.dflt).result)).length
          = self.children.length ∧
      ∀ i : Nat, i < self.children.length →
        ((self.children.map raw).map (fun rc? => (rc?.getD RawTask.dflt).result)).getD i J.null
          = ((raw (self.children.getD i "")).getD RawTask.dflt).result) := by
  constructor
  · intro pfx self raw s time cmd d r o s' hfin hdata hres hrun hs
    unfold ChainTemplate.handleCommand_result at hrun
    rw [if_neg hfin] at hrun
    simp only [hdata, hres] at hrun
    cases hp : self.parent with
    | none =>
        simp only [hp] at hrun
        injection hrun with ho
        rw [← ho] at hs
        obtain ⟨_, hafter⟩ := runTx_pair_true s s' _ _ _ _ _ _ rfl hs
        rw [hafter]
        simp
    | some p =>
        simp only [hp] at hrun
        injection hrun with ho
        rw [← ho] at hs
        obtain ⟨_, hafter⟩ := runTx_pair_true s s' _ _ _ _ _ _ rfl hs
        rw [hafter]
        simp
  · intro pfx self raw time cmd o s s' hdone hall hrun hs
    unfold GroupTemplate.handleCommand_group_check at hrun
    rw [if_neg hdone] at hrun
    simp only [hall, Bool.false_eq_true, if_false] at hrun
    have halign : ∀ i : Nat, i < self.children.length →
        ((self.children.map raw).map (fun rc? => (rc?.getD RawTask.dflt).result)).getD i J.null
          = ((raw (self.children.getD i "")).getD RawTask.dflt).result := by
      intro i hi
      rw [getD_map_of_lt _ _ _ _ none (by simpa using hi),
          getD_map_of_lt _ _ _ _ "" hi]
    cases hp : self.parent with
    | none =>
        simp only [hp] at hrun
        injection hrun with ho
        rw [← ho] at hs
        obtain ⟨_, hafter⟩ := runTx_pair_true s s' _ _ _ _ _ _ rfl hs
        refine ⟨?_, by simp, halign⟩
        rw [hafter]
        simp
    | some p =>
        simp only [hp] at hrun
        injection hrun with ho
        rw [← ho] at hs
        obtain ⟨_, hafter⟩ := runTx_pair_true s s' _ _ _ _ _ _ rfl hs
        refine ⟨?_, by simp, halign⟩
        rw [hafter]
        simp

/-- The finishing transaction of `wChainLast` on result 7. -/
def wChainFinishOutcome : RunOutcome :=
  { preEvents := [],
    tx := { validate :=
              [ (J.num 1, Op.zrem (lockedKey "" "p") wCmdResult.toJSON),
                (J.str "idle", Op.hget (taskKey "" "t1") "state") ],
            exec :=
              [ Op.hincrby (taskKey "" "t1") "children_finished" 1,
                Op.srem ("" ++ "idle") "t1",
                Op.zadd ("" ++ "finished") 8 (J.str "t1"),
                Op.hset (taskKey "" "t1") "state" (J.str "finished"),
                Op.hset (taskKey "" "t1") "progress" (J.num 10),
                Op.hset (taskKey "" "t1") "result" (J.num 7),
                Op.zadd (commandsKey "" "pp") 5
                  (Command.toJSON ⟨"par", "pu", "result",
                     some ⟨some "t1", some (J.num 7), none⟩⟩) ] },
    postEvents := [ Event.taskEnd "t1" "u1" ] }

/-- The finishing transaction of `wGroup` with both child records present. -/
def wGroupFinishOutcome : RunOutcome :=
  { preEvents := [],
    tx := { validate :=
              [ (J.num 1, Op.zrem (lockedKey "" "p") wCmdGroupCheck.toJSON),
                (J.str "idle", Op.hget (taskKey "" "g1") "state") ],
            exec :=
              [ Op.srem ("" ++ "idle") "g1",
                Op.zadd ("" ++ "finished") 8 (J.str "g1"),
                Op.hset (taskKey "" "g1") "state" (J.str "finished"),
                Op.hset (taskKey "" "g1") "progress" (J.num 10),
                Op.hset (taskKey "" "g1") "result" (J.arr [J.num 41, J.num 42]),
                Op.zadd (commandsKey "" "pp") 5
                  (Command.toJSON ⟨"par", "pu", "result",
                     some ⟨some "g1", some (J.arr [J.num 41, J.num 42]), none⟩⟩) ] },
    postEvents := [ Event.taskEnd "g1" "u1" ] }

theorem c5_persisted_results_witness :
    ((wStoreChainFeed.runTx wChainFinishOutcome.tx).1).hget (taskKey "" "t1") "result"
      = J.num 7 ∧
    ((wStoreGroup.runTx wGroupFinishOutcome.tx).1).hget (taskKey "" "g1") "result"
      = J.arr ((wGroup.children.map wRawAll).map (fun rc? => (rc?.getD RawTask.dflt).result)) ∧
    ((wGroup.children.map wRawAll).map (fun rc? => (rc?.getD RawTask.dflt).result)).length
      = wGroup.children.length ∧
    ((wGroup.children.map wRawAll).map (fun rc? => (rc?.getD RawTask.dflt).result)).getD 0 J.null
      = ((wRawAll (wGroup.children.getD 0 "")).getD RawTask.dflt).result :=
  ⟨c5_persisted_results.1 "" wChainLast wRawAll wStoreChainFeed 5 wCmdResult
     ⟨some "a", some (J.num 7), none⟩ (J.num 7) wChainFinishOutcome _
     (by decide) rfl rfl (by decide) (by decide),
   (c5_persisted_results.2 "" wGroup wRawAll 5 wCmdGroupCheck wGroupFinishOutcome
     wStoreGroup ((wStoreGroup.runTx wGroupFinishOutcome.tx).1)
     (by decide) (by decide) (by decide) (by decide)).1,
   (c5_persisted_results.2 "" wGroup wRawAll 5 wCmdGroupCheck wGroupFinishOutcome
     wStoreGroup ((wStoreGroup.runTx wGroupFinishOutcome.tx).1)
     (by decide) (by decide) (by decide) (by decide)).2.1,
   (c5_persisted_results.2 "" wGroup wRawAll 5 wCmdGroupCheck wGroupFinishOutcome
     wStoreGroup ((wStoreGroup.runTx wGroupFinishOutcome.tx).1)
     (by decide) (by decide) (by decide) (by decide)).2.2 0 (by decide)⟩

theorem execFold_append (l₁ l₂ : List Op) (s : Store) :
    execFold (l₁ ++ l₂) s = execFold l₂ (execFold l₁ s) := by
  unfold execFold
  rw [List.foldl_append]

theorem execFold_append_preserve (l₁ l₂ : List Op) (s : Store) (K F : String)
    (h : ∀ op ∈ l₂, op.preservesHashes) :
    (execFold (l₁ ++ l₂) s).hget K F = (execFold l₁ s).hget K F := by
  rw [execFold_append]
  exact hget_execFold_preserve l₂ _ K F h

theorem chainActivate_edge (pfx : String) (self : CompositeTask)
    (raw : String → Option RawTask) (time : Int) (cmd : Command) (o : RunOutcome)
    (hrun : ChainTemplate.handleCommand_activate pfx self raw time cmd = Outcome.run o) :
    ((J.str "waiting", Op.hget (taskKey pfx self.id) "state") ∈ o.tx.validate) ∧
    ∀ s s' : Store, s.runTx o.tx = (s', true) →
      s.hget (taskKey pfx self.id) "state" = J.str "waiting" ∧
      s'.hget (taskKey pfx self.id) "state" = J.str "idle" ∧
      (s'.runTx o.tx).2 = false := by
  unfold ChainTemplate.handleCommand_activate at hrun
  cases hraw : raw (self.children.getD 0 "") with
  | none =>
      simp only [hraw] at hrun
      injection hrun with ho
      subst ho
      refine ⟨by simp, ?_⟩
      intro s s' hs
      obtain ⟨hbefore, hafter⟩ := runTx_pair_true s s' _ _ _ _ _ _ rfl hs
      have hst' : s'.hget (taskKey pfx self.id) "state" = J.str "idle" := by
        rw [hafter]; simp
      exact ⟨hbefore, hst',
        by rw [runTx_pair_false s' _ _ _ _ _ _ rfl (by rw [hst']; decide)]⟩
  | some rc =>
      simp only [hraw] at hrun
      injection hrun with ho
      subst ho
      refine ⟨by simp, ?_⟩
      intro s s' hs
      obtain ⟨hbefore, hafter⟩ := runTx_pair_true s s' _ _ _ _ _ _ rfl hs
      have hst' : s'.hget (taskKey pfx self.id) "state" = J.str "idle" := by
        rw [hafter]; simp
      exact ⟨hbefore, hst',
        by rw [runTx_pair_false s' _ _ _ _ _ _ rfl (by rw [hst']; decide)]⟩

theorem groupActivate_edge (pfx : String) (self : CompositeTask)
    (raw : String → Option RawTask) (time : Int) (cmd : Command) (o : RunOutcome)
    (hrun : GroupTemplate.handleCommand_activate pfx self raw time cmd = Outcome.run o) :
    ((J.str "waiting", Op.hget (taskKey pfx self.id) "state") ∈ o.tx.validate) ∧
    ∀ s s' : Store, s.runTx o.tx = (s', true) →
      s.hget (taskKey pfx self.id) "state" = J.str "waiting" ∧
      s'.hget (taskKey pfx self.id) "state" = J.str "idle" ∧
      (s'.runTx o.tx).2 = false := by
  unfold GroupTemplate.handleCommand_activate at hrun
  injection hrun with ho
  subst ho
  refine ⟨by simp, ?_⟩
  intro s s' hs
  obtain ⟨hbefore, hafter⟩ := runTx_pair_true s s' _ _ _ _ _ _ rfl hs
  have hst' : s'.hget (taskKey pfx self.id) "state" = J.str "idle" := by
    rw [hafter]
    show (execFold ([ Op.srem (pfx ++ "waiting") self.id,
                      Op.sadd (pfx ++ "idle") self.id,
                      Op.hset (taskKey pfx self.id) "state" (J.str "idle") ] ++
          (self.children.map raw).filterMap (fun rc? => rc?.map (fun rc =>
            Op.zadd (commandsKey pfx rc.pool) time
              (Command.toJSON ⟨rc.id, rc.uid, "activate", none⟩))))
          (s.zremApply (lockedKey pfx self.pool) cmd.toJSON)).hget
        (taskKey pfx self.id) "state" = J.str "idle"
    rw [execFold_append_preserve _ _ _ _ _ (by
      intro op hop
      rw [List.mem_filterMap] at hop
      obtain ⟨rc?, hmem, hf⟩ := hop
      cases rc? with
      | none => cases hf
      | some rc =>
          injection hf with hf
          rw [← hf]
          exact preservesHashes_zadd _ _ _)]
    simp
  exact ⟨hbefore, hst',
    by rw [runTx_pair_false s' _ _ _ _ _ _ rfl (by rw [hst']; decide)]⟩

theorem chainResult_feed_keeps_idle (pfx : String) (self : CompositeTask)
    (raw : String → Option RawTask) (s : Store) (time : Int) (cmd : Command)
    (o : RunOutcome)
    (hfeed : self.children_finished + 1 < self.children.length)
    (hrun : ChainTemplate.handleCommand_result pfx self raw s time cmd = Outcome.run o) :
    ((J.str "idle", Op.hget (taskKey pfx self.id) "state") ∈ o.tx.validate) ∧
    ∀ t t' : Store, t.runTx o.tx = (t', true) →
      t.hget (taskKey pfx self.id) "state" = J.str "idle" ∧
      t'.hget (taskKey pfx self.id) "state" = J.str "idle" := by
  unfold ChainTemplate.handleCommand_result at hrun
  rw [if_pos hfeed] at hrun
  cases hd : cmd.data with
  | none =>
      simp only [hd] at hrun
      exact Outcome.noConfusion hrun
  | some d =>
      by_cases htr : (d.result.getD J.null).truthy = true
      · cases hraw : raw (self.children.getD (self.children_finished + 1) "") with
        | none =>
            cases harg : s.hget (taskKey pfx (self.children.getD (self.children_finished + 1) "")) "args" with
            | arr xs =>
                simp only [hd, htr, if_true, hraw, harg] at hrun
                injection hrun with ho
                subst ho
                refine ⟨by simp, ?_⟩
                intro t t' ht
                obtain ⟨hbefore, hafter⟩ := runTx_pair_true t t' _ _ _ _ _ _ rfl ht
                refine ⟨hbefore, ?_⟩
                rw [hafter]
                simp
                exact hbefore
            | null =>
                simp only [hd, htr, if_true, hraw, harg] at hrun
                exact Outcome.noConfusion hrun
            | bool b =>
                simp only [hd, htr, if_true, hraw, harg] at hrun
                exact Outcome.noConfusion hrun
            | num n =>
                simp only [hd, htr, if_true, hraw, harg] at hrun
                exact Outcome.noConfusion hrun
            | str st =>
                simp only [hd, htr, if_true, hraw, harg] at hrun
                exact Outcome.noConfusion hrun
            | obj fs =>
                simp only [hd, htr, if_true, hraw, harg] at hrun
                exact Outcome.noConfusion hrun
        | some rc =>
            cases harg : s.hget (taskKey pfx (self.children.getD (self.children_finished + 1) "")) "args" with
            | arr xs =>
                simp only [hd, htr, if_true, hraw, harg] at hrun
                injection hrun with ho
                subst ho
                refine ⟨by simp, ?_⟩
                intro t t' ht
                obtain ⟨hbefore, hafter⟩ := runTx_pair_true t t' _ _ _ _ _ _ rfl ht
                refine ⟨hbefore, ?_⟩
                rw [hafter]
                simp
                exact hbefore
            | null =>
                simp only [hd, htr, if_true, hraw, harg] at hrun
                exact Outcome.noConfusion hrun
            | bool b =>
                simp only [hd, htr, if_true, hraw, harg] at hrun
                exact Outcome.noConfusion hrun
            | num n =>
                simp only [hd, htr, if_true, hraw, harg] at hrun
                exact Outcome.noConfusion hrun
            | str st =>
                simp only [hd, htr, if_true, hraw, harg] at hrun
                exact Outcome.noConfusion hrun
            | obj fs =>
                simp only [hd, htr, if_true, hraw, harg] at hrun
                exact Outcome.noConfusion hrun
      · have htrf : (d.result.getD J.null).truthy = false := by
          cases hb : (d.result.getD J.null).truthy with
          | false => rfl
          | true => exact absurd hb htr
        cases hraw : raw (self.children.getD (self.children_finished + 1) "") with
        | none =>
            simp only [hd, htrf, Bool.false_eq_true, if_false, hraw] at hrun
            injection hrun with ho
            subst ho
            refine ⟨by simp, ?_⟩
            intro t t' ht
            obtain ⟨hbefore, hafter⟩ := runTx_pair_true t t' _ _ _ _ _ _ rfl ht
            refine ⟨hbefore, ?_⟩
            rw [hafter]
            simp
            exact hbefore
        | some rc =>
            simp only [hd, htrf, Bool.false_eq_true, if_false, hraw] at hrun
            injection hrun with ho
            subst ho
            refine ⟨by simp, ?_⟩
            intro t t' ht
            obtain ⟨hbefore, hafter⟩ := runTx_pair_true t t' _ _ _ _ _ _ rfl ht
            refine ⟨hbefore, ?_⟩
            rw [hafter]
            simp
            exact hbefore

theorem chainResult_finish_edge (pfx : String) (self : CompositeTask)
    (raw : String → Option RawTask) (s : Store) (time : Int) (cmd : Command)
    (o : RunOutcome)
    (hfin : ¬ self.children_finished + 1 < self.children.length)
    (hrun : ChainTemplate.handleCommand_result pfx self raw s time cmd = Outcome.run o) :
    ((J.str "idle", Op.hget (taskKey pfx self.id) "state") ∈ o.tx.validate) ∧
    ∀ t t' : Store, t.runTx o.tx = (t', true) →
      t.hget (taskKey pfx self.id) "state" = J.str "idle" ∧
      t'.hget (taskKey pfx self.id) "state" = J.str "finished" ∧
      (t'.runTx o.tx).2 = false := by
  unfold ChainTemplate.handleCommand_result at hrun
  rw [if_neg hfin] at hrun
  cases hd : cmd.data with
  | none =>
      simp only [hd] at hrun
      exact Outcome.noConfusion hrun
  | some d =>
      cases hres : d.result with
      | none =>
          cases hp : self.parent with
          | none =>
              simp only [hd, hres, hp] at hrun
              injection hrun with ho
              subst ho
              refine ⟨by simp, ?_⟩
              intro t t' ht
              obtain ⟨hbefore, hafter⟩ := runTx_pair_true t t' _ _ _ _ _ _ rfl ht
              have hst' : t'.hget (taskKey pfx self.id) "state" = J.str "finished" := by
                rw [hafter]; simp
              exact ⟨hbefore, hst',
                by rw [runTx_pair_false t' _ _ _ _ _ _ rfl (by rw [hst']; decide)]⟩
          | some p =>
              simp only [hd, hres, hp] at hrun
              injection hrun with ho
              subst ho
              refine ⟨by simp, ?_⟩
              intro t t' ht
              obtain ⟨hbefore, hafter⟩ := runTx_pair_true t t' _ _ _ _ _ _ rfl ht
              have hst' : t'.hget (taskKey pfx self.id) "state" = J.str "finished" := by
                rw [hafter]; simp
              exact ⟨hbefore, hst',
                by rw [runTx_pair_false t' _ _ _ _ _ _ rfl (by rw [hst']; decide)]⟩
      | some r =>
          cases hp : self.parent with
          | none =>
              simp only [hd, hres, hp] at hrun
              injection hrun with ho
              subst ho
              refine ⟨by simp, ?_⟩
              intro t t' ht
              obtain ⟨hbefore, hafter⟩ := runTx_pair_true t t' _ _ _ _ _ _ rfl ht
              have hst' : t'.hget (taskKey pfx self.id) "state" = J.str "finished" := by
                rw [hafter]; simp
              exact ⟨hbefore, hst',
                by rw [runTx_pair_false t' _ _ _ _ _ _ rfl (by rw [hst']; decide)]⟩
          | some p =>
              simp only [hd, hres, hp] at hrun
              injection hrun with ho
              subst ho
              refine ⟨by simp, ?_⟩
              intro t t' ht
              obtain ⟨hbefore, hafter⟩ := runTx_pair_true t t' _ _ _ _ _ _ rfl ht
              have hst' : t'.hget (taskKey pfx self.id) "state" = J.str "finished" := by
                rw [hafter]; simp
              exact ⟨hbefore, hst',
                by rw [runTx_pair_false t' _ _ _ _ _ _ rfl (by rw [hst']; decide)]⟩

theorem groupResult_keeps_idle (pfx : String) (self : CompositeTask)
    (time : Int) (cmd : Command) (o : RunOutcome)
    (hrun : GroupTemplate.handleCommand_result pfx self time cmd = Outcome.run o) :
    ((J.str "idle", Op.hget (taskKey pfx self.id) "state") ∈ o.tx.validate) ∧
    ∀ t t' : Store, t.runTx o.tx = (t', true) →
      t.hget (taskKey pfx self.id) "state" = J.str "idle" ∧
      t'.hget (taskKey pfx self.id) "state" = J.str "idle" := by
  unfold GroupTemplate.handleCommand_result at hrun
  injection hrun with ho
  subst ho
  refine ⟨by simp, ?_⟩
  intro t t' ht
  obtain ⟨hbefore, hafter⟩ := runTx_pair_true t t' _ _ _ _ _ _ rfl ht
  refine ⟨hbefore, ?_⟩
  rw [hafter]
  simp
  exact hbefore

theorem groupCheck_finish_edge (pfx : String) (self : CompositeTask)
    (raw : String → Option RawTask) (time : Int) (cmd : Command) (o : RunOutcome)
    (hrun : GroupTemplate.handleCommand_group_check pfx self raw time cmd = Outcome.run o) :
    ((J.str "idle", Op.hget (taskKey pfx self.id) "state") ∈ o.tx.validate) ∧
    ∀ t t' : Store, t.runTx o.tx = (t', true) →
      t.hget (taskKey pfx self.id) "state" = J.str "idle" ∧
      t'.hget (taskKey pfx self.id) "state" = J.str "finished" ∧
      (t'.runTx o.tx).2 = false := by
  unfold GroupTemplate.handleCommand_group_check at hrun
  by_cases hdone : self.children_finished < self.children.length
  · rw [if_pos hdone] at hrun
    exact Outcome.noConfusion hrun
  · rw [if_neg hdone] at hrun
    by_cases hnull : ((self.children.map raw).any (fun rc? => rc?.isNone)) = true
    · cases hp : self.parent with
      | none =>
          simp only [hnull, if_true, hp] at hrun
          injection hrun with ho
          subst ho
          refine ⟨by simp, ?_⟩
          intro t t' ht
          obtain ⟨hbefore, hafter⟩ := runTx_pair_true t t' _ _ _ _ _ _ rfl ht
          have hst' : t'.hget (taskKey pfx self.id) "state" = J.str "finished" := by
            rw [hafter]; simp
          exact ⟨hbefore, hst',
            by rw [runTx_pair_false t' _ _ _ _ _ _ rfl (by rw [hst']; decide)]⟩
      | some p =>
          simp only [hnull, if_true, hp] at hrun
          injection hrun with ho
          subst ho
          refine ⟨by simp, ?_⟩
          intro t t' ht
          obtain ⟨hbefore, hafter⟩ := runTx_pair_true t t' _ _ _ _ _ _ rfl ht
          have hst' : t'.hget (taskKey pfx self.id) "state" = J.str "finished" := by
            rw [hafter]; simp
          exact ⟨hbefore, hst',
            by rw [runTx_pair_false t' _ _ _ _ _ _ rfl (by rw [hst']; decide)]⟩
    · have hnf : ((self.children.map raw).any (fun rc? => rc?.isNone)) = false := by
        cases hb : ((self.children.map raw).any (fun rc? => rc?.isNone)) with
        | false => rfl
        | true => exact absurd hb hnull
      cases hp : self.parent with
      | none =>
          simp only [hnf, Bool.false_eq_true, if_false, hp] at hrun
          injection hrun with ho
          subst ho
          refine ⟨by simp, ?_⟩
          intro t t' ht
          obtain ⟨hbefore, hafter⟩ := runTx_pair_true t t' _ _ _ _ _ _ rfl ht
          have hst' : t'.hget (taskKey pfx self.id) "state" = J.str "finished" := by
            rw [hafter]; simp
          exact ⟨hbefore, hst',
            by rw [runTx_pair_false t' _ _ _ _ _ _ rfl (by rw [hst']; decide)]⟩
      | some p =>
          simp only [hnf, Bool.false_eq_true, if_false, hp] at hrun
          injection hrun with ho
          subst ho
          refine ⟨by simp, ?_⟩
          intro t t' ht
          obtain ⟨hbefore, hafter⟩ := runTx_pair_true t t' _ _ _ _ _ _ rfl ht
          have hst' : t'.hget (taskKey pfx self.id) "state" = J.str "finished" := by
            rw [hafter]; simp
          exact ⟨hbefore, hst',
            by rw [runTx_pair_false t' _ _ _ _ _ _ rfl (by rw [hst']; decide)]⟩

/-- C3: composite state moves only forward along waiting → idle → finished,
each edge at most once.  Both activate handlers validate `state == waiting`
and, when their transaction succeeds, the persisted state goes from
`waiting` to `idle` and the same transaction can never validate again; the
chain's feed transaction and the group's result transaction validate
`state == idle` and leave the state at `idle`; the chain's finishing
transaction and the group's terminal check validate `state == idle`, move
the state to `finished`, and can never validate again. -/
theorem c3_state_machine_forward :
    (∀ (pfx : String) (self : CompositeTask) (raw : String → Option RawTask)
       (time : Int) (cmd : Command) (o : RunOutcome),
      ChainTemplate.handleCommand_activate pfx self raw time cmd = Outcome.run o →
      ((J.str "waiting", Op.hget (taskKey pfx self.id) "state") ∈ o.tx.validate) ∧
      ∀ s s' : Store, s.runTx o.tx = (s', true) →
        s.hget (taskKey pfx self.id) "state" = J.str "waiting" ∧
        s'.hget (taskKey pfx self.id) "state" = J.str "idle" ∧
        (s'.runTx o.tx).2 = false) ∧
    (∀ (pfx : String) (self : CompositeTask) (raw : String → Option RawTask)
       (time : Int) (cmd : Command) (o : RunOutcome),
      GroupTemplate.handleCommand_activate pfx self raw time cmd = Outcome.run o →
      ((J.str "waiting", Op.hget (taskKey pfx self.id) "state") ∈ o.tx.validate) ∧
      ∀ s s' : Store, s.runTx o.tx = (s', true) →
        s.hget (taskKey pfx self.id) "state" = J.str "waiting" ∧
        s'.hget (taskKey pfx self.id) "state" = J.str "idle" ∧
        (s'.runTx o.tx).2 = false) ∧
    (∀ (pfx : String) (self : CompositeTask) (raw : String → Option RawTask)
       (s : Store) (time : Int) (cmd : Command) (o : RunOutcome),
      self.children_finished + 1 < self.children.length →
      ChainTemplate.handleCommand_result pfx self raw s time cmd = Outcome.run o →
      ((J.str "idle", Op.hget (taskKey pfx self.id) "state") ∈ o.tx.validate) ∧
      ∀ t t' : Store, t.runTx o.tx = (t', true) →
        t.hget (taskKey pfx self.id) "state" = J.str "idle" ∧
        t'.hget (taskKey pfx self.id) "state" = J.str "idle") ∧
    (∀ (pfx : String) (self : CompositeTask) (raw : String → Option RawTask)
       (s : Store) (time : Int) (cmd : Command) (o : RunOutcome),
      ¬ self.children_finished + 1 < self.children.length →
      ChainTemplate.handleCommand_result pfx self raw s time cmd = Outcome.run o →
      ((J.str "idle", Op.hget (taskKey pfx self.id) "state") ∈ o.tx.validate) ∧
      ∀ t t' : Store, t.runTx o.tx = (t', true) →
        t.hget (taskKey pfx self.id) "state" = J.str "idle" ∧
        t'.hget (taskKey pfx self.id) "state" = J.str "finished" ∧
        (t'.runTx o.tx).2 = false) ∧
    (∀ (pfx : String) (self : CompositeTask) (time : Int) (cmd : Command) (o : RunOutcome),
      GroupTemplate.handleCommand_result pfx self time cmd = Outcome.run o →
      ((J.str "idle", Op.hget (taskKey pfx self.id) "state") ∈ o.tx.validate) ∧
      ∀ t t' : Store, t.runTx o.tx = (t', true) →
        t.hget (taskKey pfx self.id) "state" = J.str "idle" ∧
        t'.hget (taskKey pfx self.id) "state" = J.str "idle") ∧
    (∀ (pfx : String) (self : CompositeTask) (raw : String → Option RawTask)
       (time : Int) (cmd : Command) (o : RunOutcome),
      GroupTemplate.handleCommand_group_check pfx self raw time cmd = Outcome.run o →
      ((J.str "idle", Op.hget (taskKey pfx self.id) "state") ∈ o.tx.validate) ∧
      ∀ t t' : Store, t.runTx o.tx = (t', true) →
        t.hget (taskKey pfx self.id) "state" = J.str "idle" ∧
        t'.hget (taskKey pfx self.id) "state" = J.str "finished" ∧
        (t'.runTx o.tx).2 = false) :=
  ⟨chainActivate_edge, groupActivate_edge, chainResult_feed_keeps_idle,
   chainResult_finish_edge, groupResult_keeps_idle, groupCheck_finish_edge⟩

/-- The activate transaction of `wChain` with the first child present. -/
def wChainActivateOutcome : RunOutcome :=
  { preEvents := [],
    tx := { validate :=
              [ (J.num 1, Op.zrem (lockedKey "" "p") wCmdActivate.toJSON),
                (J.str "waiting", Op.hget (taskKey "" "t1") "state") ],
            exec :=
              [ Op.srem ("" ++ "waiting") "t1",
                Op.sadd ("" ++ "idle") "t1",
                Op.hset (taskKey "" "t1") "state" (J.str "idle"),
                Op.zadd (commandsKey "" "pa") 5
                  (Command.toJSON ⟨"a", "ua", "activate", none⟩) ] },
    postEvents := [] }

/-- Store holding the waiting chain record and the locked `activate`. -/
def wStoreChainWaiting : Store :=
  ⟨[("t1", "state", J.str "waiting")], [("waiting", "t1")],
   [("p:commands_locked", Command.toJSON wCmdActivate, 5)]⟩

theorem c3_state_machine_forward_witness :
    wStoreChainWaiting.hget (taskKey "" "t1") "state" = J.str "waiting" ∧
    ((wStoreChainWaiting.runTx wChainActivateOutcome.tx).1).hget (taskKey "" "t1") "state"
      = J.str "idle" ∧
    (((wStoreChainWaiting.runTx wChainActivateOutcome.tx).1).runTx
        wChainActivateOutcome.tx).2 = false :=
  (c3_state_machine_forward.1 "" wChain wRawAll 5 wCmdActivate wChainActivateOutcome
    (by decide)).2 wStoreChainWaiting
    ((wStoreChainWaiting.runTx wChainActivateOutcome.tx).1) (by decide)

theorem lock_rerun_fails_pair (tx : Transaction) (k : String) (m : J) (e2 : J) (K f : String)
    (hv : tx.validate = [(J.num 1, Op.zrem k m), (e2, Op.hget K f)])
    (hexec : ∀ op ∈ tx.exec, ∀ sc : Int, op ≠ Op.zadd k sc m)
    (s s' : Store) (h : s.runTx tx = (s', true)) :
    (s'.runTx tx).2 = false :=
  lock_rerun_fails tx k m [(e2, Op.hget K f)] hv
    (by
      intro pr hp sc
      rw [List.mem_singleton] at hp
      subst hp
      exact fun hc => Op.noConfusion hc)
    hexec s s' h

theorem zadd_commands_ne_zadd_locked (p a q b : String) (t1 t2 : Int) (m1 m2 : J) :
    Op.zadd (commandsKey p a) t1 m1 ≠ Op.zadd (lockedKey q b) t2 m2 := by
  intro h
  injection h with h1 h2 h3
  exact commandsKey_ne_lockedKey p a q b h1

theorem zadd_str_ne_zadd_tok (k1 k2 : String) (t1 t2 : Int) (idv : String) (c : Command) :
    Op.zadd k1 t1 (J.str idv) ≠ Op.zadd k2 t2 c.toJSON := by
  intro h
  injection h with h1 h2 h3
  unfold Command.toJSON at h3
  exact J.noConfusion h3

theorem chainActivate_lock_discipline (pfx : String) (self : CompositeTask)
    (raw : String → Option RawTask) (time : Int) (cmd : Command) (o : RunOutcome)
    (hrun : ChainTemplate.handleCommand_activate pfx self raw time cmd = Outcome.run o) :
    o.tx.validate = [(J.num 1, Op.zrem (lockedKey pfx self.pool) cmd.toJSON),
                     (J.str "waiting", Op.hget (taskKey pfx self.id) "state")] ∧
    ∀ op ∈ o.tx.exec, ∀ sc : Int, op ≠ Op.zadd (lockedKey pfx self.pool) sc cmd.toJSON := by
  unfold ChainTemplate.handleCommand_activate at hrun
  cases hraw : raw (self.children.getD 0 "") with
  | none =>
      simp only [hraw] at hrun
      injection hrun with ho
      subst ho
      refine ⟨rfl, ?_⟩
      intro op hop sc
      simp at hop
      rcases hop with rfl | rfl | rfl
      · exact fun hc => Op.noConfusion hc
      · exact fun hc => Op.noConfusion hc
      · exact fun hc => Op.noConfusion hc
  | some rc =>
      simp only [hraw] at hrun
      injection hrun with ho
      subst ho
      refine ⟨rfl, ?_⟩
      intro op hop sc
      simp at hop
      rcases hop with rfl | rfl | rfl | rfl
      · exact fun hc => Op.noConfusion hc
      · exact fun hc => Op.noConfusion hc
      · exact fun hc => Op.noConfusion hc
      · exact zadd_commands_ne_zadd_locked _ _ _ _ _ _ _ _

theorem groupActivate_lock_discipline (pfx : String) (self : CompositeTask)
    (raw : String → Option RawTask) (time : Int) (cmd : Command) (o : RunOutcome)
    (hrun : GroupTemplate.handleCommand_activate pfx self raw time cmd = Outcome.run o) :
    o.tx.validate = [(J.num 1, Op.zrem (lockedKey pfx self.pool) cmd.toJSON),
                     (J.str "waiting", Op.hget (taskKey pfx self.id) "state")] ∧
    ∀ op ∈ o.tx.exec, ∀ sc : Int, op ≠ Op.zadd (lockedKey pfx self.pool) sc cmd.toJSON := by
  unfold GroupTemplate.handleCommand_activate at hrun
  injection hrun with ho
  subst ho
  refine ⟨rfl, ?_⟩
  intro op hop sc
  rw [List.mem_append] at hop
  rcases hop with hop | hop
  · simp at hop
    rcases hop with rfl | rfl | rfl
    · exact fun hc => Op.noConfusion hc
    · exact fun hc => Op.noConfusion hc
    · exact fun hc => Op.noConfusion hc
  · rw [List.mem_filterMap] at hop
    obtain ⟨rc?, hmem, hf⟩ := hop
    cases rc? with
    | none => cases hf
    | some rc =>
        injection hf with hf
        rw [← hf]
        exact zadd_commands_ne_zadd_locked _ _ _ _ _ _ _ _

theorem groupResult_lock_discipline (pfx : String) (self : CompositeTask)
    (time : Int) (cmd : Command) (o : RunOutcome)
    (hrun : GroupTemplate.handleCommand_result pfx self time cmd = Outcome.run o) :
    o.tx.validate = [(J.num 1, Op.zrem (lockedKey pfx self.pool) cmd.toJSON),
                     (J.str "idle", Op.hget (taskKey pfx self.id) "state")] ∧
    ∀ op ∈ o.tx.exec, ∀ sc : Int, op ≠ Op.zadd (lockedKey pfx self.pool) sc cmd.toJSON := by
  unfold GroupTemplate.handleCommand_result at hrun
  injection hrun with ho
  subst ho
  refine ⟨rfl, ?_⟩
  intro op hop sc
  simp at hop
  rcases hop with rfl | rfl
  · exact fun hc => Op.noConfusion hc
  · exact zadd_commands_ne_zadd_locked _ _ _ _ _ _ _ _

theorem chainResult_lock_discipline (pfx : String) (self : CompositeTask)
    (raw : String → Option RawTask) (s : Store) (time : Int) (cmd : Command)
    (o : RunOutcome)
    (hrun : ChainTemplate.handleCommand_result pfx self raw s time cmd = Outcome.run o) :
    o.tx.validate = [(J.num 1, Op.zrem (lockedKey pfx self.pool) cmd.toJSON),
                     (J.str "idle", Op.hget (taskKey pfx self.id) "state")] ∧
    ∀ op ∈ o.tx.exec, ∀ sc : Int, op ≠ Op.zadd (lockedKey pfx self.pool) sc cmd.toJSON := by
  unfold ChainTemplate.handleCommand_result at hrun
  by_cases hfeed : self.children_finished + 1 < self.children.length
  · rw [if_pos hfeed] at hrun
    cases hd : cmd.data with
    | none =>
        simp only [hd] at hrun
        exact Outcome.noConfusion hrun
    | some d =>
        by_cases htr : (d.result.getD J.null).truthy = true
        · cases hraw : raw (self.children.getD (self.children_finished + 1) "") with
          | none =>
              cases harg : s.hget (taskKey pfx (self.children.getD (self.children_finished + 1) "")) "args" with
              | arr xs =>
                  simp only [hd, htr, if_true, hraw, harg] at hrun
                  injection hrun with ho
                  subst ho
                  refine ⟨rfl, ?_⟩
                  intro op hop sc
                  simp at hop
                  rcases hop with rfl | rfl
                  all_goals first
                    | exact fun hc => Op.noConfusion hc
                    | exact zadd_str_ne_zadd_tok _ _ _ _ _ _
                    | exact zadd_commands_ne_zadd_locked _ _ _ _ _ _ _ _
              | null =>
                  simp only [hd, htr, if_true, hraw, harg] at hrun
                  exact Outcome.noConfusion hrun
              | bool b =>
                  simp only [hd, htr, if_true, hraw, harg] at hrun
                  exact Outcome.noConfusion hrun
              | num n =>
                  simp only [hd, htr, if_true, hraw, harg] at hrun
                  exact Outcome.noConfusion hrun
              | str st =>
                  simp only [hd, htr, if_true, hraw, harg] at hrun
                  exact Outcome.noConfusion hrun
              | obj fs =>
                  simp only [hd, htr, if_true, hraw, harg] at hrun
                  exact Outcome.noConfusion hrun
          | some rc =>
              cases harg : s.hget (taskKey pfx (self.children.getD (self.children_finished + 1) "")) "args" with
              | arr xs =>
                  simp only [hd, htr, if_true, hraw, harg] at hrun
                  injection hrun with ho
                  subst ho
                  refine ⟨rfl, ?_⟩
                  intro op hop sc
                  simp at hop
                  rcases hop with rfl | rfl | rfl
                  all_goals first
                    | exact fun hc => Op.noConfusion hc
                    | exact zadd_str_ne_zadd_tok _ _ _ _ _ _
                    | exact zadd_commands_ne_zadd_locked _ _ _ _ _ _ _ _
              | null =>
                  simp only [hd, htr, if_true, hraw, harg] at hrun
                  exact Outcome.noConfusion hrun
              | bool b =>
                  simp only [hd, htr, if_true, hraw, harg] at hrun
                  exact Outcome.noConfusion hrun
              | num n =>
                  simp only [hd, htr, if_true, hraw, harg] at hrun
                  exact Outcome.noConfusion hrun
              | str st =>
                  simp only [hd, htr, if_true, hraw, harg] at hrun
                  exact Outcome.noConfusion hrun
              | obj fs =>
                  simp only [hd, htr, if_true, hraw, harg] at hrun
                  exact Outcome.noConfusion hrun
        · have htrf : (d.result.getD J.null).truthy = false := by
            cases hb : (d.result.getD J.null).truthy with
            | false => rfl
            | true => exact absurd hb htr
          cases hraw : raw (self.children.getD (self.children_finished + 1) "") with
          | none =>
              simp only [hd, htrf, Bool.false_eq_true, if_false, hraw] at hrun
              injection hrun with ho
              subst ho
              refine ⟨rfl, ?_⟩
              intro op hop sc
              simp at hop
              subst hop
              exact fun hc => Op.noConfusion hc
          | some rc =>
              simp only [hd, htrf, Bool.false_eq_true, if_false, hraw] at hrun
              injection hrun with ho
              subst ho
              refine ⟨rfl, ?_⟩
              intro op hop sc
              simp at hop
              rcases hop with rfl | rfl
              all_goals first
                | exact fun hc => Op.noConfusion hc
                | exact zadd_commands_ne_zadd_locked _ _ _ _ _ _ _ _
  · rw [if_neg hfeed] at hrun
    cases hd : cmd.data with
    | none =>
        simp only [hd] at hrun
        exact Outcome.noConfusion hrun
    | some d =>
        cases hres : d.result with
        | none =>
            cases hp : self.parent with
            | none =>
                simp only [hd, hres, hp] at hrun
                injection hrun with ho
                subst ho
                refine ⟨rfl, ?_⟩
                intro op hop sc
                simp at hop
                rcases hop with rfl | rfl | rfl | rfl | rfl
                all_goals first
                  | exact fun hc => Op.noConfusion hc
                  | exact zadd_str_ne_zadd_tok _ _ _ _ _ _
                  | exact zadd_commands_ne_zadd_locked _ _ _ _ _ _ _ _
            | some p =>
                simp only [hd, hres, hp] at hrun
                injection hrun with ho
                subst ho
                refine ⟨rfl, ?_⟩
                intro op hop sc
                simp at hop
                rcases hop with rfl | rfl | rfl | rfl | rfl | rfl
                all_goals first
                  | exact fun hc => Op.noConfusion hc
                  | exact zadd_str_ne_zadd_tok _ _ _ _ _ _
                  | exact zadd_commands_ne_zadd_locked _ _ _ _ _ _ _ _
        | some r =>
            cases hp : self.parent with
            | none =>
                simp only [hd, hres, hp] at hrun
                injection hrun with ho
                subst ho
                refine ⟨rfl, ?_⟩
                intro op hop sc
                simp at hop
                rcases hop with rfl | rfl | rfl | rfl | rfl | rfl
                all_goals first
                  | exact fun hc => Op.noConfusion hc
                  | exact zadd_str_ne_zadd_tok _ _ _ _ _ _
                  | exact zadd_commands_ne_zadd_locked _ _ _ _ _ _ _ _
            | some p =>
                simp only [hd, hres, hp] at hrun
                injection hrun with ho
                subst ho
                refine ⟨rfl, ?_⟩
                intro op hop sc
                simp at hop
                rcases hop with rfl | rfl | rfl | rfl | rfl | rfl | rfl
                all_goals first
                  | exact fun hc => Op.noConfusion hc
                  | exact zadd_str_ne_zadd_tok _ _ _ _ _ _
                  | exact zadd_commands_ne_zadd_locked _ _ _ _ _ _ _ _

theorem groupCheck_lock_discipline (pfx : String) (self : CompositeTask)
    (raw : String → Option RawTask) (time : Int) (cmd : Command) (o : RunOutcome)
    (hrun : GroupTemplate.handleCommand_group_check pfx self raw time cmd = Outcome.run o) :
    o.tx.validate = [(J.num 1, Op.zrem (lockedKey pfx self.pool) cmd.toJSON),
                     (J.str "idle", Op.hget (taskKey pfx self.id) "state")] ∧
    ∀ op ∈ o.tx.exec, ∀ sc : Int, op ≠ Op.zadd (lockedKey pfx self.pool) sc cmd.toJSON := by
  unfold GroupTemplate.handleCommand_group_check at hrun
  by_cases hdone : self.children_finished < self.children.length
  · rw [if_pos hdone] at hrun
    exact Outcome.noConfusion hrun
  · rw [if_neg hdone] at hrun
    by_cases hnull : ((self.children.map raw).any (fun rc? => rc?.isNone)) = true
    · cases hp : self.parent with
      | none =>
          simp only [hnull, if_true, hp] at hrun
          injection hrun with ho
          subst ho
          refine ⟨rfl, ?_⟩
          intro op hop sc
          simp at hop
          rcases hop with rfl | rfl | rfl | rfl
          all_goals first
            | exact fun hc => Op.noConfusion hc
            | exact zadd_str_ne_zadd_tok _ _ _ _ _ _
            | exact zadd_commands_ne_zadd_locked _ _ _ _ _ _ _ _
      | some p =>
          simp only [hnull, if_true, hp] at hrun
          injection hrun with ho
          subst ho
          refine ⟨rfl, ?_⟩
          intro op hop sc
          simp at hop
          rcases hop with rfl | rfl | rfl | rfl | rfl
          all_goals first
            | exact fun hc => Op.noConfusion hc
            | exact zadd_str_ne_zadd_tok _ _ _ _ _ _
            | exact zadd_commands_ne_zadd_locked _ _ _ _ _ _ _ _
    · have hnf : ((self.children.map raw).any (fun rc? => rc?.isNone)) = false := by
        cases hb : ((self.children.map raw).any (fun rc? => rc?.isNone)) with
        | false => rfl
        | true => exact absurd hb hnull
      cases hp : self.parent with
      | none =>
          simp only [hnf, Bool.false_eq_true, if_false, hp] at hrun
          injection hrun with ho
          subst ho
          refine ⟨rfl, ?_⟩
          intro op hop sc
          simp at hop
          rcases hop with rfl | rfl | rfl | rfl | rfl
          all_goals first
            | exact fun hc => Op.noConfusion hc
            | exact zadd_str_ne_zadd_tok _ _ _ _ _ _
            | exact zadd_commands_ne_zadd_locked _ _ _ _ _ _ _ _
      | some p =>
          simp only [hnf, Bool.false_eq_true, if_false, hp] at hrun
          injection hrun with ho
          subst ho
          refine ⟨rfl, ?_⟩
          intro op hop sc
          simp at hop
          rcases hop with rfl | rfl | rfl | rfl | rfl | rfl
          all_goals first
            | exact fun hc => Op.noConfusion hc
            | exact zadd_str_ne_zadd_tok _ _ _ _ _ _
            | exact zadd_commands_ne_zadd_locked _ _ _ _ _ _ _ _

/-- C2: every transaction any composite handler submits has, as its first
validate entry, the removal of the handled command's canonical form from
the pool's `commands_locked` sorted set with expected count 1; and since no
exec entry ever re-adds that member to that set, a transaction that
succeeded once can never validate again — so for a given delivered command
at most one racing worker's transaction effects the transition. -/
theorem c2_lock_first_validate_at_most_once :
    (∀ (pfx : String) (self : CompositeTask) (raw : String → Option RawTask)
       (time : Int) (cmd : Command) (o : RunOutcome),
      ChainTemplate.handleCommand_activate pfx self raw time cmd = Outcome.run o →
      o.tx.validate.head? = some (J.num 1, Op.zrem (lockedKey pfx self.pool) cmd.toJSON) ∧
      ∀ s s' : Store, s.runTx o.tx = (s', true) → (s'.runTx o.tx).2 = false) ∧
    (∀ (pfx : String) (self : CompositeTask) (raw : String → Option RawTask)
       (s : Store) (time : Int) (cmd : Command) (o : RunOutcome),
      ChainTemplate.handleCommand_result pfx self raw s time cmd = Outcome.run o →
      o.tx.validate.head? = some (J.num 1, Op.zrem (lockedKey pfx self.pool) cmd.toJSON) ∧
      ∀ t t' : Store, t.runTx o.tx = (t', true) → (t'.runTx o.tx).2 = false) ∧
    (∀ (pfx : String) (self : CompositeTask) (raw : String → Option RawTask)
       (time : Int) (cmd : Command) (o : RunOutcome),
      GroupTemplate.handleCommand_activate pfx self raw time cmd = Outcome.run o →
      o.tx.validate.head? = some (J.num 1, Op.zrem (lockedKey pfx self.pool) cmd.toJSON) ∧
      ∀ s s' : Store, s.runTx o.tx = (s', true) → (s'.runTx o.tx).2 = false) ∧
    (∀ (pfx : String) (self : CompositeTask) (time : Int) (cmd : Command) (o : RunOutcome),
      GroupTemplate.handleCommand_result pfx self time cmd = Outcome.run o →
      o.tx.validate.head? = some (J.num 1, Op.zrem (lockedKey pfx self.pool) cmd.toJSON) ∧
      ∀ s s' : Store, s.runTx o.tx = (s', true) → (s'.runTx o.tx).2 = false) ∧
    (∀ (pfx : String) (self : CompositeTask) (raw : String → Option RawTask)
       (time : Int) (cmd : Command) (o : RunOutcome),
      GroupTemplate.handleCommand_group_check pfx self raw time cmd = Outcome.run o →
      o.tx.validate.head? = some (J.num 1, Op.zrem (lockedKey pfx self.pool) cmd.toJSON) ∧
      ∀ s s' : Store, s.runTx o.tx = (s', true) → (s'.runTx o.tx).2 = false) := by
  refine ⟨?_, ?_, ?_, ?_, ?_⟩
  · intro pfx self raw time cmd o hrun
    obtain ⟨hval, hexec⟩ := chainActivate_lock_discipline pfx self raw time cmd o hrun
    exact ⟨by rw [hval]; rfl,
      fun s s' h => lock_rerun_fails_pair o.tx _ _ _ _ _ hval hexec s s' h⟩
  · intro pfx self raw s time cmd o hrun
    obtain ⟨hval, hexec⟩ := chainResult_lock_discipline pfx self raw s time cmd o hrun
    exact ⟨by rw [hval]; rfl,
      fun t t' h => lock_rerun_fails_pair o.tx _ _ _ _ _ hval hexec t t' h⟩
  · intro pfx self raw time cmd o hrun
    obtain ⟨hval, hexec⟩ := groupActivate_lock_discipline pfx self raw time cmd o hrun
    exact ⟨by rw [hval]; rfl,
      fun s s' h => lock_rerun_fails_pair o.tx _ _ _ _ _ hval hexec s s' h⟩
  · intro pfx self time cmd o hrun
    obtain ⟨hval, hexec⟩ := groupResult_lock_discipline pfx self time cmd o hrun
    exact ⟨by rw [hval]; rfl,
      fun s s' h => lock_rerun_fails_pair o.tx _ _ _ _ _ hval hexec s s' h⟩
  · intro pfx self raw time cmd o hrun
    obtain ⟨hval, hexec⟩ := groupCheck_lock_discipline pfx self raw time cmd o hrun
    exact ⟨by rw [hval]; rfl,
      fun s s' h => lock_rerun_fails_pair o.tx _ _ _ _ _ hval hexec s s' h⟩

theorem c2_lock_first_validate_at_most_once_witness :
    wChainActivateOutcome.tx.validate.head?
      = some (J.num 1, Op.zrem (lockedKey "" "p") wCmdActivate.toJSON) ∧
    (((wStoreChainWaiting.runTx wChainActivateOutcome.tx).1).runTx
        wChainActivateOutcome.tx).2 = false :=
  ⟨(c2_lock_first_validate_at_most_once.1 "" wChain wRawAll 5 wCmdActivate
      wChainActivateOutcome (by decide)).1,
   (c2_lock_first_validate_at_most_once.1 "" wChain wRawAll 5 wCmdActivate
      wChainActivateOutcome (by decide)).2 wStoreChainWaiting
      ((wStoreChainWaiting.runTx wChainActivateOutcome.tx).1) (by decide)⟩
